import Mathlib

/-!
# Verification of the HealthKart dashboard metric pipeline

A shallow embedding of the metrics computation and filter-composition
pipeline of `src/healthkart_dashboard/app.py`.  Tables are lists of rows,
a row being an association list from (lowercased) column names to cell
values; cell values mirror the pandas value universe relevant to the
pipeline: rational numbers (standing for the numeric dtypes), strings,
NaN (also standing for missing data), and the two floating-point
infinities that pandas division can produce.

All definitions are translated from the source file; where a pandas
operation has behaviour outside the dtype discipline the pipeline
establishes (e.g. summing a string-typed column), theorems carry
hypotheses restricting attention to the faithful regime.
-/

namespace HK

/-- A cell value, mirroring the pandas scalar universe used by the app:
numeric values as rationals, strings, NaN (`na`, which also encodes a
missing value), and the two infinities produced by float division. -/
inductive Val where
  | num (q : ℚ)
  | str (s : String)
  | na
  | inf
  | neginf
deriving DecidableEq, Repr

/-- Numeric payload of a cell, when it is numeric. -/
def Val.asNum : Val → Option ℚ
  | .num q => some q
  | _ => none

/-- Parse a decimal literal `[-]digits[.digits]` to a rational, as
`pd.to_numeric` does for the string cells the pipeline meets.  Returns
`none` on anything unparseable. -/
def parseDigits (cs : List Char) : Option ℕ :=
  if cs = [] then none
  else if cs.all Char.isDigit then
    some (cs.foldl (fun a c => a * 10 + (c.toNat - 48)) 0)
  else none

/-- Parse the fractional part of a decimal literal: `digits` become
`digits / 10 ^ length`. -/
def parseFrac (cs : List Char) : Option ℚ :=
  (parseDigits cs).map (fun n => (n : ℚ) / (10 : ℚ) ^ cs.length)

/-- ASCII whitespace test (what `strip`/`trim` remove). -/
def isSpaceChar (c : Char) : Bool :=
  c = ' ' || c = '\t' || c = '\n' || c = '\r'

/-- Strip leading and trailing whitespace from a character list. -/
def trimChars (cs : List Char) : List Char :=
  ((cs.dropWhile isSpaceChar).reverse.dropWhile isSpaceChar).reverse

/-- `str.strip()` on a string. -/
def strTrim (s : String) : String := ⟨trimChars s.data⟩

/-- `str.lower()` on a string. -/
def strLower (s : String) : String := ⟨s.data.map Char.toLower⟩

/-- Parse a (trimmed) string to a rational number like
`pd.to_numeric(..., errors='coerce')` would: optional sign, integer part,
optional fractional part. -/
def parseQ (s : String) : Option ℚ :=
  let cs := (strTrim s).data
  let (sign, body) : ℚ × List Char :=
    match cs with
    | '-' :: rest => (-1, rest)
    | '+' :: rest => (1, rest)
    | _ => (1, cs)
  match body.splitOn '.' with
  | [ip] => (parseDigits ip).map (fun n => sign * n)
  | [ip, fp] =>
      match parseDigits ip, parseFrac fp with
      | some n, some f => some (sign * ((n : ℚ) + f))
      | _, _ => none
  | _ => none

/-- `pd.to_numeric(col, errors='coerce')` on one cell: numerics pass
through, parseable strings become numbers, everything else becomes NaN. -/
def coerceNum : Val → Val
  | .num q => .num q
  | .str s => match parseQ s with
      | some q => .num q
      | none => .na
  | .na => .na
  | .inf => .inf
  | .neginf => .neginf

/-- Round to the nearest integer, ties to even, the rounding used by
pandas/numpy `.round`. -/
def roundHE (q : ℚ) : ℤ :=
  let f : ℤ := ⌊q⌋
  let r : ℚ := q - f
  if r < 1/2 then f
  else if (1:ℚ)/2 < r then f + 1
  else if f % 2 = 0 then f else f + 1

/-- `.round(2)` on a rational. -/
def round2 (q : ℚ) : ℚ := (roundHE (q * 100) : ℚ) / 100

/-- `.round(2)` on a cell: numerics are rounded, NaN and the infinities
pass through unchanged (as in numpy). -/
def roundVal2 : Val → Val
  | .num q => .num (round2 q)
  | v => v

/-- Elementwise pandas/numpy division of two cells.  Division by zero
yields `inf`/`-inf`/NaN by the sign of the numerator — never an error.
NaN propagates.  (String operands would raise a `TypeError` in pandas;
every theorem touching division restricts to non-string operands, and the
model maps that unreached case to NaN.) -/
def divVal : Val → Val → Val
  | .num a, .num b =>
      if b = 0 then (if 0 < a then .inf else if a < 0 then .neginf else .na)
      else .num (a / b)
  | .na, _ => .na
  | _, .na => .na
  | .num _, .inf => .num 0
  | .num _, .neginf => .num 0
  | .inf, .num b => if b < 0 then .neginf else .inf
  | .neginf, .num b => if b < 0 then .inf else .neginf
  | .inf, _ => .na
  | .neginf, _ => .na
  | .str _, _ => .na
  | _, .str _ => .na

/-- Elementwise multiplication (only ever applied with a positive numeric
literal in the app, after coercion). -/
def mulVal : Val → Val → Val
  | .num a, .num b => .num (a * b)
  | .na, _ => .na
  | _, .na => .na
  | .inf, .num b => if b < 0 then .neginf else if b = 0 then .na else .inf
  | .num a, .inf => if a < 0 then .neginf else if a = 0 then .na else .inf
  | .neginf, .num b => if b < 0 then .inf else if b = 0 then .na else .neginf
  | .num a, .neginf => if a < 0 then .inf else if a = 0 then .na else .neginf
  | .inf, .inf => .inf
  | .neginf, .neginf => .inf
  | .inf, .neginf => .neginf
  | .neginf, .inf => .neginf
  | .str _, _ => .na
  | _, .str _ => .na

/-- Elementwise subtraction (only ever applied to numerics in the app). -/
def subVal : Val → Val → Val
  | .num a, .num b => .num (a - b)
  | .na, _ => .na
  | _, .na => .na
  | _, _ => .na

/-- `pandas` `<` comparison on cells: numeric order, `-inf` below and
`inf` above every number; any comparison involving NaN is `False`. -/
def ltVal : Val → Val → Bool
  | .num a, .num b => a < b
  | .num _, .inf => true
  | .neginf, .num _ => true
  | .neginf, .inf => true
  | _, _ => false

/-- `pandas` `>=` on cells (used by the follower-range filter):
complement of `<` on comparable cells, `False` whenever NaN or a
non-numeric cell is involved. -/
def geVal : Val → Val → Bool
  | .num a, .num b => b ≤ a
  | .inf, .num _ => true
  | .num _, .neginf => true
  | .inf, .neginf => true
  | _, _ => false

/-- `pandas` `<=` on cells. -/
def leVal : Val → Val → Bool
  | .num a, .num b => a ≤ b
  | .num _, .inf => true
  | .neginf, .num _ => true
  | .neginf, .inf => true
  | _, _ => false

/-- Sum of a list of cells the way a pandas numeric aggregation does:
NaN cells are skipped (`skipna=True`) and the empty/all-NaN sum is `0`.
The pipeline only ever sums numeric-or-NaN columns (the incremental-ROAS
columns are coerced first); faithfulness is relative to that regime. -/
def sumVals (l : List Val) : Val :=
  .num (l.foldl (fun a v => match v with | .num q => a + q | _ => a) 0)

/-- Python `int()` truncation toward zero, used on the slider bounds. -/
def intTrunc (q : ℚ) : ℤ := if 0 ≤ q then ⌊q⌋ else ⌈q⌉

/-! ## Tables

A row is an association list from column names to cells; a table is a
column-name list plus a row list.  All the dataframe operations the app
uses are defined below on this representation. -/

/-- One dataframe row. -/
abbrev Row : Type := List (String × Val)

/-- A dataframe: its column names and its rows. -/
structure Table where
  cols : List String
  rows : List Row
deriving DecidableEq, Repr

/-- `row[c]`: value of the first entry named `c` (NaN if absent, which
the pipeline only exercises for columns known to be present). -/
def rowGet (r : Row) (c : String) : Val :=
  match List.lookup c r with
  | some v => v
  | none => .na

/-- Rewrite the cell of every entry named `c` in place (models an
assignment to an existing column). -/
def mapCell (r : Row) (c : String) (f : Val → Val) : Row :=
  r.map (fun p => if p.1 = c then (p.1, f p.2) else p)

/-- Set column `c` of a row: replace it when present, append it when new
(models `df[c] = ...`). -/
def rowSet (r : Row) (c : String) (v : Val) : Row :=
  if r.any (fun p => p.1 = c) then mapCell r c (fun _ => v) else r ++ [(c, v)]

/-- Rename one column of a row. -/
def rowRename (r : Row) (c c' : String) : Row :=
  r.map (fun p => if p.1 = c then (c', p.2) else p)

/-- Drop one column of a row. -/
def rowDrop (r : Row) (c : String) : Row :=
  r.filter (fun p => p.1 ≠ c)

/-- Keep the rows satisfying a boolean predicate (a pandas boolean-mask
selection). -/
def Table.filterRows (t : Table) (p : Row → Bool) : Table :=
  ⟨t.cols, t.rows.filter p⟩

/-- `df[c] = df[...].something` on a whole table: set column `c` of every
row from a per-row function, adding the column name if new. -/
def Table.setCol (t : Table) (c : String) (f : Row → Val) : Table :=
  ⟨if c ∈ t.cols then t.cols else t.cols ++ [c],
   t.rows.map (fun r => rowSet r c (f r))⟩

/-- Transform an existing column of every row in place
(e.g. `df[c] = pd.to_numeric(df[c], ...)`). -/
def Table.mapCol (t : Table) (c : String) (f : Val → Val) : Table :=
  ⟨t.cols, t.rows.map (fun r => mapCell r c f)⟩

/-- `df.rename(columns={c: c'})`. -/
def Table.renameCol (t : Table) (c c' : String) : Table :=
  ⟨t.cols.map (fun x => if x = c then c' else x),
   t.rows.map (fun r => rowRename r c c')⟩

/-- `df.drop(columns=[c])`. -/
def Table.dropCol (t : Table) (c : String) : Table :=
  ⟨t.cols.filter (fun x => x ≠ c), t.rows.map (fun r => rowDrop r c)⟩

/-- Every row's entry names agree with the table header (the dataframes
built by `pd.read_csv` and by every operation here satisfy this). -/
def Table.WF (t : Table) : Prop := ∀ r ∈ t.rows, r.map Prod.fst = t.cols

/-- `series.isin(sel)` on one cell. -/
def isin (v : Val) (sel : List Val) : Bool := sel.contains v

/-- The distinct values of a column, first occurrence first — pandas
`Series.unique()`. -/
def uniqueCol (t : Table) (c : String) : List Val :=
  (t.rows.map (fun r => rowGet r c)).dedup

/-- Normalize the column names of a table: strip and lowercase, applied
to both the header and the row keys (lines 21-22 and 386-389 of the
source). -/
def normName (s : String) : String := strLower (strTrim s)
def Table.normCols (t : Table) : Table :=
  ⟨t.cols.map normName, t.rows.map (fun r => r.map (fun p => (normName p.1, p.2)))⟩

/-- Column names present in both tables (the candidates for merge
suffixing), in left-table order. -/
def commonCols (l r : Table) (excl : List String) : List String :=
  l.cols.filter (fun c => c ∈ r.cols ∧ c ∉ excl)

/-- Suffix the listed column names of a row. -/
def suffixRow (r : Row) (common : List String) (suf : String) : Row :=
  r.map (fun p => if p.1 ∈ common then (p.1 ++ suf, p.2) else p)

/-- Suffix the listed names in a header. -/
def suffixCols (cols common : List String) (suf : String) : List String :=
  cols.map (fun c => if c ∈ common then c ++ suf else c)

/-- `pd.merge(l, r, on=key, how='inner', suffixes=(sufL, sufR))`:
one output row per key-matching pair, in left-row-major order; columns
present on both sides (other than the key) are suffixed. -/
def innerMergeKey (l r : Table) (key sufL sufR : String) : Table :=
  let common := commonCols l r [key]
  ⟨suffixCols l.cols common sufL ++
     suffixCols (r.cols.filter (fun c => c ≠ key)) common sufR,
   l.rows.flatMap (fun lr =>
     (r.rows.filter (fun rr => rowGet rr key = rowGet lr key)).map
       (fun rr => suffixRow lr common sufL ++
                  suffixRow (rowDrop rr key) common sufR))⟩

/-- `pd.merge(l, r, on=key, how='left', suffixes=('_x','_y'))`: like the
inner merge but a left row with no match is kept, its right-side columns
filled with NaN. -/
def leftMergeKey (l r : Table) (key : String) : Table :=
  let common := commonCols l r [key]
  let rcols := r.cols.filter (fun c => c ≠ key)
  ⟨suffixCols l.cols common "_x" ++ suffixCols rcols common "_y",
   l.rows.flatMap (fun lr =>
     match r.rows.filter (fun rr => rowGet rr key = rowGet lr key) with
     | [] => [suffixRow lr common "_x" ++
              (suffixCols rcols common "_y").map (fun c => (c, Val.na))]
     | ms => ms.map (fun rr => suffixRow lr common "_x" ++
                               suffixRow (rowDrop rr key) common "_y"))⟩

/-- `l.merge(r, left_on=kl, right_on=kr, how='left')` with default
suffixes: both key columns are retained; shared non-key names are
suffixed `_x`/`_y`. -/
def leftMergeLR (l r : Table) (kl kr : String) : Table :=
  let common := commonCols l r []
  ⟨suffixCols l.cols common "_x" ++ suffixCols r.cols common "_y",
   l.rows.flatMap (fun lr =>
     match r.rows.filter (fun rr => rowGet rr kr = rowGet lr kl) with
     | [] => [suffixRow lr common "_x" ++
              (suffixCols r.cols common "_y").map (fun c => (c, Val.na))]
     | ms => ms.map (fun rr => suffixRow lr common "_x" ++ suffixRow rr common "_y"))⟩

/-- `df.groupby(key)[cols].sum()` (with `reset_index`): one row per
distinct non-NaN key (pandas drops NaN group keys), carrying the skipna
sum of each aggregated column over that key's rows.  Group order is the
order of first appearance; pandas sorts group keys, a difference of row
order only, which no claim depends on. -/
def groupSum (t : Table) (key : String) (aggCols : List String) : Table :=
  let ks := ((t.rows.map (fun r => rowGet r key)).dedup).filter (fun k => k ≠ .na)
  ⟨key :: aggCols,
   ks.map (fun k =>
     let grp := t.rows.filter (fun r => rowGet r key = k)
     (key, k) :: aggCols.map (fun c => (c, sumVals (grp.map (fun r => rowGet r c)))))⟩

/-- `fillna(0)` on one cell. -/
def fillZero : Val → Val
  | .na => .num 0
  | v => v

/-- `.replace([inf, -inf], 0).fillna(0)` on one cell (line 436). -/
def clampNonfinite : Val → Val
  | .inf => .num 0
  | .neginf => .num 0
  | .na => .num 0
  | v => v

/-- `df[c].fillna(0)`. -/
def Table.fillna0 (t : Table) (c : String) : Table :=
  t.mapCol c fillZero

/-- `df[cs]` column projection. -/
def projectCols (t : Table) (cs : List String) : Table :=
  ⟨cs, t.rows.map (fun r => cs.map (fun c => (c, rowGet r c)))⟩

/-- Skipna mean of a list of cells (`Series.mean()`); all-NaN gives NaN. -/
def meanVals (l : List Val) : Val :=
  let qs := l.filterMap Val.asNum
  if qs.isEmpty then .na else .num (qs.sum / qs.length)

/-! ## The pipeline, translated from `app.py` -/

/-- Lines 102-108: the first follower-count alias present among the
influencer columns. -/
def followerColOf (t : Table) : Option String :=
  if "follower count" ∈ t.cols then some "follower count"
  else if "follower_count" ∈ t.cols then some "follower_count"
  else if "followers" ∈ t.cols then some "followers"
  else none

/-- Line 112: when a follower column exists, the sidebar coerces it to
numeric **in place on the raw influencer table** before any filtering. -/
def influencersAfterSidebar (influencers : Table) : Table :=
  match followerColOf influencers with
  | some c => influencers.mapCol c coerceNum
  | none => influencers

/-- Skipna (min, max) of a numeric column, with the source's fallbacks
`(0, 1000000)` when every cell is NaN (lines 113-114). -/
def colMinMax (t : Table) (c : String) : ℚ × ℚ :=
  match (t.rows.map (fun r => rowGet r c)).filterMap Val.asNum with
  | [] => (0, 1000000)
  | q :: qs => (qs.foldl min q, qs.foldl max q)

/-- Lines 110-124: the follower slider's default value, `int()`-truncated
bounds of the coerced follower column; `none` when no follower column. -/
def defaultFollowerRange (influencers : Table) : Option (ℤ × ℤ) :=
  (followerColOf influencers).map (fun c =>
    let mm := colMinMax (influencersAfterSidebar influencers) c
    (intTrunc mm.1, intTrunc mm.2))

/-- Python truthiness of an optional selection list: `None` and the empty
list are both falsy, so either skips the corresponding filter step. -/
def optActive (sel : Option (List Val)) : Bool :=
  match sel with
  | some l => !l.isEmpty
  | none => false

/-- Lines 175, 184-199: the filtered influencer table.  Platform is
always applied; category applies when its selection is truthy and the
column exists; the follower range applies when both the range and the
follower column exist; gender applies when its selection is truthy. -/
def filteredInfluencers (influencers : Table) (selPlatform : List Val)
    (selCategory : Option (List Val)) (selFollowerRange : Option (ℤ × ℤ))
    (selGender : Option (List Val)) : Table :=
  let fi := influencers.filterRows (fun r => isin (rowGet r "platform") selPlatform)
  let fi := if optActive selCategory && influencers.cols.contains "category" then
      fi.filterRows (fun r => isin (rowGet r "category") (selCategory.getD []))
    else fi
  let fi := match selFollowerRange, followerColOf influencers with
    | some (lo, hi), some c =>
        fi.filterRows (fun r =>
          geVal (rowGet r c) (.num lo) && leVal (rowGet r c) (.num hi))
    | _, _ => fi
  if optActive selGender then
    fi.filterRows (fun r => isin (rowGet r "gender") (selGender.getD []))
  else fi

/-- Lines 176-181: the filtered tracking table — campaign always,
product when its selection is truthy and the column exists. -/
def filteredTracking (tracking : Table) (selCampaign : List Val)
    (selProduct : Option (List Val)) : Table :=
  let ft := tracking.filterRows (fun r => isin (rowGet r "campaign") selCampaign)
  if optActive selProduct && tracking.cols.contains "product" then
    ft.filterRows (fun r => isin (rowGet r "product") (selProduct.getD []))
  else ft

/-- Lines 292-293: per-influencer revenue sums of the filtered tracking
table, under the name `total_revenue`. -/
def revenue_df (filtered_tracking : Table) : Table :=
  (groupSum filtered_tracking "influencer_id" ["revenue"]).renameCol
    "revenue" "total_revenue"

/-- Lines 296-297: payouts restricted to the filtered influencer ids. -/
def filtered_payouts (payouts filtered_influencers : Table) : Table :=
  payouts.filterRows (fun r =>
    isin (rowGet r "influencer_id")
      (filtered_influencers.rows.map (fun ir => rowGet ir "id")))

/-- Lines 300-303: the ROAS table.  Left-merge the filtered payouts with
the revenue sums, fill missing revenue with 0, compute
`roas = (total_revenue / total_payout).round(2)` — plain pandas division
with no zero guard — then attach the influencer name. -/
def roas_df (filtered_tracking filtered_influencers payouts : Table) : Table :=
  let t := leftMergeKey (filtered_payouts payouts filtered_influencers)
             (revenue_df filtered_tracking) "influencer_id"
  let t := t.fillna0 "total_revenue"
  let t := t.setCol "roas" (fun r =>
    roundVal2 (divVal (rowGet r "total_revenue") (rowGet r "total_payout")))
  leftMergeLR t (projectCols filtered_influencers ["id", "name"]) "influencer_id" "id"

/-- Lines 345-347: a copy of payouts with `payout_amount` renamed to
`total_payout` when the canonical name must come from the alias. -/
def payouts_roi (payouts : Table) : Table :=
  if payouts.cols.contains "payout_amount" then
    payouts.renameCol "payout_amount" "total_payout"
  else payouts

/-- Lines 358-361: the per-row ROI lambda — the one ratio in the app with
an explicit division-by-zero guard. -/
def roiLambda (rev pay : Val) : Val :=
  if pay ≠ .num 0 then mulVal (divVal (subVal rev pay) pay) (.num 100)
  else .num 0

/-- Lines 353-363: the ROI table.  Inner-merge filtered tracking with the
normalized payouts, coerce `revenue` and `total_payout` to numeric with
NaN→0, apply the guarded ROI lambda, round to 2 places. -/
def roi_df (filtered_tracking payouts_roi : Table) : Table :=
  let t := innerMergeKey filtered_tracking payouts_roi "influencer_id" "_x" "_y"
  let t := (t.mapCol "revenue" coerceNum).fillna0 "revenue"
  let t := (t.mapCol "total_payout" coerceNum).fillna0 "total_payout"
  let t := t.setCol "roi (%)" (fun r =>
    roiLambda (rowGet r "revenue") (rowGet r "total_payout"))
  t.mapCol "roi (%)" roundVal2

/-- Lines 385-386: filtered tracking with re-normalized column names. -/
def tracking_clean (filtered_tracking : Table) : Table :=
  filtered_tracking.normCols

/-- Lines 388-389: normalized payouts with re-normalized column names. -/
def payouts_clean (p_roi : Table) : Table :=
  p_roi.normCols

/-- Lines 399-420: the incremental-ROAS merge.  Inner-merge with the
explicit suffixes `('_tracking', '_payouts')`, rename the tracking-side
orders back to `orders`, drop the payout-side orders. -/
def merged_df (tracking_clean payouts_clean : Table) : Table :=
  let m := innerMergeKey tracking_clean payouts_clean "influencer_id"
             "_tracking" "_payouts"
  let m := if m.cols.contains "orders_tracking" then
      m.renameCol "orders_tracking" "orders"
    else if m.cols.contains "orders_x" then m.renameCol "orders_x" "orders"
    else m
  let m := if m.cols.contains "orders_payouts" then m.dropCol "orders_payouts" else m
  if m.cols.contains "orders_y" then m.dropCol "orders_y" else m

/-- Lines 423-437: the incremental-ROAS table: coerce `revenue`, `orders`
and `total_payout` of the merged frame to numeric with NaN→0, group by
influencer summing the three, then `iROAS = revenue / orders` with
`±inf` replaced by 0, NaN filled with 0, and rounding to 2 places. -/
def incremental_df (tracking_clean payouts_clean : Table) : Table :=
  let m := merged_df tracking_clean payouts_clean
  let m := (m.mapCol "revenue" coerceNum).fillna0 "revenue"
  let m := (m.mapCol "orders" coerceNum).fillna0 "orders"
  let m := (m.mapCol "total_payout" coerceNum).fillna0 "total_payout"
  let g := groupSum m "influencer_id" ["orders", "revenue", "total_payout"]
  let g := g.setCol "iROAS" (fun r =>
    divVal (rowGet r "revenue") (rowGet r "orders"))
  let g := g.mapCol "iROAS" clampNonfinite
  g.mapCol "iROAS" roundVal2

/-! ### Insight ranking (lines 456-465)

`sort_values` orders rows by the `roas` cell; NaN rows go last whichever
direction is requested (`na_position='last'`), `-inf` sits below and
`inf` above every number.  The sort keys below realize exactly that
order. -/

/-- Sort key for descending `sort_values`: larger keys first, NaN last.
The `roas` column never holds a string (it is a rounded division result);
the string case is keyed with NaN only to make the function total. -/
def roasKeyDesc (v : Val) : Lex (ℚ × ℚ) :=
  toLex (match v with
    | .na => (0, 0)
    | .str _ => (0, 0)
    | .neginf => (1, 0)
    | .num q => (2, q)
    | .inf => (3, 0))

/-- Sort key for ascending `sort_values`: smaller keys first, NaN last.
The string case is keyed with NaN only to make the function total. -/
def roasKeyAsc (v : Val) : Lex (ℚ × ℚ) :=
  toLex (match v with
    | .neginf => (0, 0)
    | .num q => (1, q)
    | .inf => (2, 0)
    | .na => (3, 0)
    | .str _ => (3, 0))

/-- Row order of `sort_values('roas', ascending=False)`. -/
def rowLeDesc (r1 r2 : Row) : Prop :=
  roasKeyDesc (rowGet r2 "roas") ≤ roasKeyDesc (rowGet r1 "roas")

/-- Row order of `sort_values('roas')` (ascending). -/
def rowLeAsc (r1 r2 : Row) : Prop :=
  roasKeyAsc (rowGet r1 "roas") ≤ roasKeyAsc (rowGet r2 "roas")

instance : DecidableRel rowLeDesc :=
  fun _ _ => inferInstanceAs (Decidable (_ ≤ _))

instance : DecidableRel rowLeAsc :=
  fun _ _ => inferInstanceAs (Decidable (_ ≤ _))

instance : IsTotal Row rowLeDesc :=
  ⟨fun a b => (le_total (roasKeyDesc (rowGet b "roas")) (roasKeyDesc (rowGet a "roas"))).imp id id⟩

instance : IsTotal Row rowLeAsc :=
  ⟨fun a b => le_total (roasKeyAsc (rowGet a "roas")) (roasKeyAsc (rowGet b "roas"))⟩

instance : IsTrans Row rowLeDesc :=
  ⟨fun _ _ _ h1 h2 => le_trans h2 h1⟩

instance : IsTrans Row rowLeAsc :=
  ⟨fun _ _ _ h1 h2 => le_trans h1 h2⟩

/-- Whether a value list is strictly descending under the pandas `<`
(used to state the spec's "sorted strictly descending" requirement). -/
def strictDescVals : List Val → Bool
  | v1 :: v2 :: rest => ltVal v2 v1 && strictDescVals (v2 :: rest)
  | _ => true

/-- Line 458: `roas_df.sort_values('roas', ascending=False).head(5)`. -/
def top_influencers (roas_tbl : Table) : Table :=
  ⟨roas_tbl.cols, (List.insertionSort rowLeDesc roas_tbl.rows).take 5⟩

/-- Line 463: `roas_df[roas_df['roas'] < 1].sort_values('roas').head(5)`.
A NaN or `inf` roas fails `< 1` and is excluded; `-inf` passes. -/
def poor_roas (roas_tbl : Table) : Table :=
  ⟨roas_tbl.cols,
   (List.insertionSort rowLeAsc
     (roas_tbl.rows.filter (fun r => ltVal (rowGet r "roas") (.num 1)))).take 5⟩

/-! ## Whole-script control flow

`app.py` is a straight-line script.  `st.stop()` raises `StopException`,
which *is* an `Exception`, so an `st.stop()` inside a `try ... except
Exception` arm is swallowed there while one outside a `try` terminates
the whole script, producing none of the later sections' outputs. -/

/-- The user's sidebar selections (§4.2 of the spec).  The optional
entries are `None` exactly when the corresponding column is absent; the
date range only affects the display-only post view and is omitted. -/
structure Selections where
  platforms : List Val
  campaigns : List Val
  products : Option (List Val)
  categories : Option (List Val)
  followerRange : Option (ℤ × ℤ)
  genders : Option (List Val)

/-- The outputs one script run displays: each metric table is `none`
when its section produced no table (stopped, failed, or never reached);
`halted` records that the script terminated before its last line. -/
structure POut where
  roas : Option Table
  roi : Option Table
  incremental : Option Table
  insights : Option (Table × Table)
  summary : Option (Val × Val × Val)
  halted : Bool
deriving DecidableEq, Repr

/-- Lines 277-337, the ROAS section.  The whole section sits in a
`try ... except Exception` arm, so the `st.stop()` issued by the
required-column check (lines 284-289) is swallowed there, as is the
`KeyError` a `total_revenue` suffix collision would raise at line 301:
both cases leave `roas_df` undefined and the script continues. -/
def roasStep (ft fi tracking payouts influencers : Table) : Option Table :=
  if (["influencer_id", "revenue"].all tracking.cols.contains &&
      ["influencer_id", "total_payout"].all payouts.cols.contains &&
      ["id", "name"].all influencers.cols.contains) &&
     !payouts.cols.contains "total_revenue" then
    some (roas_df ft fi payouts)
  else none

/-- The full script run, lines 21-537: normalization, sidebar coercion,
filters, then the metric sections in order with the source's `st.stop()`
/ `try` placement.  The post-performance view (lines 231-270) is
display-only and contributes only its join-key `st.stop()` checks; its
platform check (lines 245-251) cannot fire because `platform` is present
in the influencer table whenever it is reached. -/
def runPipeline (influencers0 posts0 tracking0 payouts0 : Table)
    (sel : Selections) : POut :=
  let influencers1 := influencers0.normCols
  let posts := posts0.normCols
  let tracking := tracking0.normCols
  let payouts := payouts0.normCols
  -- lines 44-56: required columns for basic functionality, st.stop() on miss
  if !(influencers1.cols.contains "platform" && tracking.cols.contains "campaign") then
    ⟨none, none, none, none, none, true⟩
  else
  -- line 112: in-place numeric coercion of the follower column
  let influencers := influencersAfterSidebar influencers1
  let fi := filteredInfluencers influencers sel.platforms sel.categories
              sel.followerRange sel.genders
  let ft := filteredTracking tracking sel.campaigns sel.products
  -- lines 234-239: join-key checks before the post view, st.stop() on miss
  if !(posts.cols.contains "influencer_id" && influencers.cols.contains "id") then
    ⟨none, none, none, none, none, true⟩
  else
  let roas? := roasStep ft fi tracking payouts influencers
  -- lines 345-350: the ROI payout-column check; this st.stop() is NOT in
  -- a try block, so a missing total_payout/payout_amount kills the script
  let proi := payouts_roi payouts
  if !proi.cols.contains "total_payout" then
    ⟨roas?, none, none, none, none, true⟩
  else
  -- lines 353-363 are not in a try block either: a suffix collision on
  -- `revenue` or `total_payout` makes line 354/355 raise an uncaught
  -- KeyError, killing the script
  if proi.cols.contains "revenue" || tracking.cols.contains "total_payout" then
    ⟨roas?, none, none, none, none, true⟩
  else
  let roi := roi_df ft proi
  -- lines 383-444 (try/except): incremental ROAS; the explicit
  -- required-column check issues a warning and skips the computation
  let incr? :=
    if ["influencer_id", "revenue", "orders"].all (tracking_clean ft).cols.contains then
      some (incremental_df (tracking_clean ft) (payouts_clean proi))
    else none
  -- lines 456-516 (try/except): the insights need `roas_df` to have been
  -- assigned (else NameError, caught) and the display columns to exist
  -- (else KeyError, caught)
  let insights? :=
    match roas? with
    | some t =>
        if ["name", "roas", "total_revenue", "total_payout"].all t.cols.contains then
          some (top_influencers t, poor_roas t)
        else none
    | none => none
  -- lines 524-537: the summary reads `roas_df` outside any try block;
  -- when the ROAS section failed the name is undefined and the script
  -- dies here with an uncaught NameError
  match roas? with
  | none => ⟨none, some roi, incr?, insights?, none, true⟩
  | some rt =>
      let totalRevenue := if ft.cols.contains "revenue" then
          sumVals (ft.rows.map (fun r => rowGet r "revenue")) else .num 0
      let totalOrders := if ft.cols.contains "orders" then
          sumVals (ft.rows.map (fun r => rowGet r "orders")) else .num 0
      let avgRoas := if rt.cols.contains "roas" && !rt.rows.isEmpty then
          meanVals (rt.rows.map (fun r => rowGet r "roas")) else .num 0
      ⟨some rt, some roi, incr?, insights?, some (totalRevenue, totalOrders, avgRoas), false⟩

/-! ## Concrete tables used by witnesses and counterexamples -/

/-- An influencer table whose follower column holds a non-numeric cell. -/
def exInflBadFollower : Table :=
  ⟨["id", "name", "platform", "followers"],
   [[("id", .num 1), ("name", .str "A"), ("platform", .str "instagram"),
     ("followers", .num 1000)],
    [("id", .num 2), ("name", .str "B"), ("platform", .str "instagram"),
     ("followers", .str "abc")]]⟩

/-- A two-influencer table (no optional columns). -/
def exInfl : Table :=
  ⟨["id", "name", "platform"],
   [[("id", .num 1), ("name", .str "A"), ("platform", .str "instagram")],
    [("id", .num 2), ("name", .str "B"), ("platform", .str "instagram")]]⟩

/-- A posts table with just the join key. -/
def exPosts : Table :=
  ⟨["influencer_id", "url"], [[("influencer_id", .num 1), ("url", .str "u")]]⟩

/-- Tracking data: both influencers have revenue 1000 on campaign c1. -/
def exTracking : Table :=
  ⟨["influencer_id", "campaign", "revenue", "orders"],
   [[("influencer_id", .num 1), ("campaign", .str "c1"),
     ("revenue", .num 1000), ("orders", .num 4)],
    [("influencer_id", .num 2), ("campaign", .str "c1"),
     ("revenue", .num 1000), ("orders", .num 4)]]⟩

/-- Payouts: both influencers were paid 500, so both end with roas 2. -/
def exPayouts : Table :=
  ⟨["influencer_id", "basis", "orders", "total_payout"],
   [[("influencer_id", .num 1), ("basis", .str "post"), ("orders", .num 9),
     ("total_payout", .num 500)],
    [("influencer_id", .num 2), ("basis", .str "post"), ("orders", .num 9),
     ("total_payout", .num 250)]]⟩

/-- Payouts paying both influencers a total of 0 (division-by-zero
cases: influencer 1 has revenue, influencer 2 has none). -/
def exPayoutsZero : Table :=
  ⟨["influencer_id", "total_payout"],
   [[("influencer_id", .num 1), ("total_payout", .num 0)],
    [("influencer_id", .num 2), ("total_payout", .num 0)]]⟩

/-- Tracking data with revenue for influencer 1 only. -/
def exTrackingOne : Table :=
  ⟨["influencer_id", "campaign", "revenue", "orders"],
   [[("influencer_id", .num 1), ("campaign", .str "c1"),
     ("revenue", .num 1000), ("orders", .num 4)]]⟩

/-- The ROI row the concrete tables produce for influencer 1. -/
def exRoiRow : Row :=
  [("influencer_id", .num 1), ("campaign", .str "c1"), ("revenue", .num 1000),
   ("orders_x", .num 4), ("basis", .str "post"), ("orders_y", .num 9),
   ("total_payout", .num 500), ("roi (%)", .num 100)]

/-- The incremental-ROAS row the concrete tables produce for influencer 1. -/
def exIncrRow : Row :=
  [("influencer_id", .num 1), ("orders", .num 4), ("revenue", .num 1000),
   ("total_payout", .num 500), ("iROAS", .num 250)]

/-- The ROAS row the concrete tables produce for influencer 1. -/
def exRoasRow : Row :=
  [("influencer_id", .num 1), ("basis", .str "post"), ("orders", .num 9),
   ("total_payout", .num 500), ("total_revenue", .num 1000),
   ("roas", .num 2), ("id", .num 1), ("name", .str "A")]

/-- Payouts in which both influencers were paid 500 (tied roas). -/
def exPayoutsTie : Table :=
  ⟨["influencer_id", "total_payout"],
   [[("influencer_id", .num 1), ("total_payout", .num 500)],
    [("influencer_id", .num 2), ("total_payout", .num 500)]]⟩

/-- A payout table carrying neither `total_payout` nor `payout_amount`. -/
def exPayoutsNoAmount : Table :=
  ⟨["influencer_id", "basis", "orders"],
   [[("influencer_id", .num 1), ("basis", .str "post"), ("orders", .num 9)]]⟩

/-- The sidebar selections that select every value occurring in the
concrete tables above. -/
def exSel : Selections :=
  ⟨[.str "instagram"], [.str "c1"], none, none, none, none⟩

/-- An influencer table whose follower column holds integer numerics. -/
def exInflFollowers : Table :=
  ⟨["id", "name", "platform", "followers"],
   [[("id", .num 1), ("name", .str "A"), ("platform", .str "instagram"),
     ("followers", .num 1000)],
    [("id", .num 2), ("name", .str "B"), ("platform", .str "instagram"),
     ("followers", .num 2500)]]⟩

/-- Whether a cell is an integer-valued numeric (what the int-cast slider
bounds assume of the coerced follower column). -/
def isIntCellB (v : Val) : Bool :=
  match v with
  | .num q => q.den = 1
  | _ => false

/-! ## Association-list lemmas for reading cells through table operations -/

theorem lookup_cons (c : String) (p : String × Val) (tl : Row) :
    List.lookup c (p :: tl) = if c = p.1 then some p.2 else List.lookup c tl := by
  rcases p with ⟨a, v⟩
  by_cases h : c = a
  · subst h; simp [List.lookup]
  · simp [List.lookup, h, beq_eq_false_iff_ne.mpr h]

theorem lookup_eq_none_iff (r : Row) (c : String) :
    List.lookup c r = none ↔ c ∉ r.map Prod.fst := by
  induction r with
  | nil => simp
  | cons p tl ih =>
      by_cases h : c = p.1 <;> simp [lookup_cons, h, ih, Ne, eq_comm]

theorem lookup_isSome_of_mem (r : Row) (c : String) (h : c ∈ r.map Prod.fst) :
    (List.lookup c r).isSome := by
  rcases hl : List.lookup c r with _ | v
  · exact absurd h ((lookup_eq_none_iff r c).mp hl)
  · rfl

theorem lookup_append_of_some (r1 r2 : Row) (c : String) (v : Val)
    (h : List.lookup c r1 = some v) :
    List.lookup c (r1 ++ r2) = some v := by
  induction r1 with
  | nil => simp at h
  | cons p tl ih =>
      rw [List.cons_append, lookup_cons]
      rw [lookup_cons] at h
      by_cases hc : c = p.1
      · rw [if_pos hc] at h ⊢; exact h
      · rw [if_neg hc] at h ⊢; exact ih h

theorem lookup_append_of_none (r1 r2 : Row) (c : String)
    (h : List.lookup c r1 = none) :
    List.lookup c (r1 ++ r2) = List.lookup c r2 := by
  induction r1 with
  | nil => simp
  | cons p tl ih =>
      rw [List.cons_append, lookup_cons]
      rw [lookup_cons] at h
      by_cases hc : c = p.1
      · rw [if_pos hc] at h; exact absurd h (by simp)
      · rw [if_neg hc] at h; rw [if_neg hc]; exact ih h

/-- Reading column `c` of a name-rewritten row finds the entry that was
named `c'`, whenever the rewrite maps a name to `c` exactly when it was
`c'` and does not change the cell values it maps to `c`. -/
theorem lookup_map_name (g : (String × Val) → String × Val) (r : Row)
    (c c' : String) (hv : ∀ p ∈ r, (g p).1 = c → (g p).2 = p.2)
    (hn : ∀ p ∈ r, ((g p).1 = c ↔ p.1 = c')) :
    List.lookup c (r.map g) = List.lookup c' r := by
  induction r with
  | nil => simp
  | cons p tl ih =>
      have hv' := hv p (by simp)
      have hn' := hn p (by simp)
      rw [List.map_cons, lookup_cons, lookup_cons]
      by_cases h : p.1 = c'
      · have hg : (g p).1 = c := hn'.mpr h
        rw [if_pos hg.symm, if_pos h.symm, hv' hg]
      · have hg : ¬ (g p).1 = c := fun hc => h (hn'.mp hc)
        rw [if_neg (fun hc => hg hc.symm), if_neg (fun hc => h hc.symm)]
        exact ih (fun q hq => hv q (by simp [hq])) (fun q hq => hn q (by simp [hq]))

theorem rowDrop_cons (p : String × Val) (tl : Row) (a : String) :
    rowDrop (p :: tl) a =
      if p.1 = a then rowDrop tl a else p :: rowDrop tl a := by
  by_cases hp : p.1 = a
  · rw [if_pos hp]
    exact List.filter_cons_of_neg (by simp [hp])
  · rw [if_neg hp]
    exact List.filter_cons_of_pos (by simp [hp])

theorem lookup_rowDrop_ne (r : Row) (a c : String) (h : c ≠ a) :
    List.lookup c (rowDrop r a) = List.lookup c r := by
  induction r with
  | nil => rfl
  | cons p tl ih =>
      rw [rowDrop_cons]
      by_cases hp : p.1 = a
      · rw [if_pos hp, lookup_cons, if_neg (fun hc => h (hc.trans hp))]
        exact ih
      · rw [if_neg hp, lookup_cons, lookup_cons]
        by_cases hc : c = p.1
        · rw [if_pos hc, if_pos hc]
        · rw [if_neg hc, if_neg hc]; exact ih

theorem lookup_mapCell_ne (r : Row) (a c : String) (f : Val → Val) (h : c ≠ a) :
    List.lookup c (mapCell r a f) = List.lookup c r := by
  refine lookup_map_name _ r c c ?_ ?_
  · intro p _ hpc
    by_cases hp : p.1 = a
    · rw [if_pos hp] at hpc
      exact absurd ((show p.1 = c from hpc).symm.trans hp) h
    · rw [if_neg hp]
  · intro p _
    by_cases hp : p.1 = a
    · rw [if_pos hp]
    · rw [if_neg hp]

theorem mapCell_cons (p : String × Val) (tl : Row) (c : String) (f : Val → Val) :
    mapCell (p :: tl) c f =
      (if p.1 = c then (p.1, f p.2) else p) :: mapCell tl c f := rfl

theorem lookup_mapCell_self (r : Row) (c : String) (f : Val → Val) :
    List.lookup c (mapCell r c f) = (List.lookup c r).map f := by
  induction r with
  | nil => rfl
  | cons p tl ih =>
      rw [mapCell_cons]
      by_cases hp : p.1 = c
      · rw [if_pos hp, lookup_cons, lookup_cons, if_pos hp.symm, if_pos hp.symm]
        rfl
      · rw [if_neg hp, lookup_cons, lookup_cons,
            if_neg (fun hc => hp hc.symm), if_neg (fun hc => hp hc.symm)]
        exact ih

theorem lookup_rowSet_self (r : Row) (c : String) (v : Val) :
    List.lookup c (rowSet r c v) = some v := by
  unfold rowSet
  by_cases hb : (r.any fun p => decide (p.1 = c)) = true
  · rw [if_pos hb, lookup_mapCell_self]
    rcases List.any_eq_true.mp hb with ⟨p, hp, hpc⟩
    have hmem : c ∈ r.map Prod.fst :=
      List.mem_map.mpr ⟨p, hp, of_decide_eq_true hpc⟩
    have hs := lookup_isSome_of_mem r c hmem
    rcases hw : List.lookup c r with _ | u
    · rw [hw] at hs; exact absurd hs (by simp)
    · rfl
  · rw [if_neg hb]
    have hnone : List.lookup c r = none := by
      rw [lookup_eq_none_iff]
      intro hc
      rcases List.mem_map.mp hc with ⟨p, hp, hpc⟩
      exact hb (List.any_eq_true.mpr ⟨p, hp, decide_eq_true hpc⟩)
    rw [lookup_append_of_none _ _ _ hnone, lookup_cons]
    simp

theorem lookup_rowSet_ne (r : Row) (a c : String) (v : Val) (h : c ≠ a) :
    List.lookup c (rowSet r a v) = List.lookup c r := by
  unfold rowSet
  by_cases hb : (r.any fun p => decide (p.1 = a)) = true
  · rw [if_pos hb]
    exact lookup_mapCell_ne r a c _ h
  · rw [if_neg hb]
    rcases hl : List.lookup c r with _ | w
    · rw [lookup_append_of_none _ _ _ hl, lookup_cons, if_neg h]
      rfl
    · exact lookup_append_of_some _ _ _ _ hl

theorem rowGet_cons (p : String × Val) (tl : Row) (c : String) :
    rowGet (p :: tl) c = if c = p.1 then p.2 else rowGet tl c := by
  rw [rowGet, lookup_cons]
  by_cases h : c = p.1
  · rw [if_pos h, if_pos h]
  · rw [if_neg h, if_neg h, rowGet]

theorem rowGet_append_of_none (r1 r2 : Row) (c : String)
    (h : c ∉ r1.map Prod.fst) :
    rowGet (r1 ++ r2) c = rowGet r2 c := by
  rw [rowGet, rowGet, lookup_append_of_none _ _ _ ((lookup_eq_none_iff r1 c).mpr h)]

theorem rowGet_append_of_mem (r1 r2 : Row) (c : String)
    (h : c ∈ r1.map Prod.fst) :
    rowGet (r1 ++ r2) c = rowGet r1 c := by
  have hs := lookup_isSome_of_mem r1 c h
  rcases hl : List.lookup c r1 with _ | v
  · rw [hl] at hs; exact absurd hs (by simp)
  · rw [rowGet, rowGet, lookup_append_of_some _ _ _ _ hl, hl]

theorem list_map_eq_self_iff {α : Type} (l : List α) (f : α → α) :
    l.map f = l ↔ ∀ x ∈ l, f x = x := by
  induction l with
  | nil => simp
  | cons x tl ih =>
      constructor
      · intro h
        rw [List.map_cons] at h
        have h1 := (List.cons.injEq _ _ _ _).mp h
        intro y hy
        rcases List.mem_cons.mp hy with hy | hy
        · rw [hy, h1.1]
        · exact (ih.mp h1.2) y hy
      · intro h
        rw [List.map_cons, h x (by simp), ih.mpr (fun y hy => h y (by simp [hy]))]

theorem rowGet_rowSet_self (r : Row) (c : String) (v : Val) :
    rowGet (rowSet r c v) c = v := by
  simp [rowGet, lookup_rowSet_self]

theorem rowGet_rowSet_ne (r : Row) (a c : String) (v : Val) (h : c ≠ a) :
    rowGet (rowSet r a v) c = rowGet r c := by
  simp [rowGet, lookup_rowSet_ne r a c v h]

theorem rowGet_mapCell_ne (r : Row) (a c : String) (f : Val → Val) (h : c ≠ a) :
    rowGet (mapCell r a f) c = rowGet r c := by
  simp [rowGet, lookup_mapCell_ne r a c f h]

/-! ## String-suffix facts used to track names through merge suffixing -/

theorem string_eq_of_data (a b : String) (h : a.data = b.data) : a = b := by
  cases a; cases b
  exact congrArg String.mk h

/-- A name carrying a merge suffix cannot equal a target name whose last
character differs from the suffix's last character. -/
theorem append_ne_of_last_ne (c s t : String) (a b : Char)
    (hs : s.data.getLast? = some a) (ht : t.data.getLast? = some b)
    (hab : a ≠ b) : c ++ s ≠ t := by
  intro h
  have hd : c.data ++ s.data = t.data := by
    rw [← String.data_append c s, h]
  have hne : s.data ≠ [] := by
    intro hnil; rw [hnil] at hs; exact Option.noConfusion hs
  have hlast : t.data.getLast? = some a := by
    rw [← hd, List.getLast?_append_of_ne_nil _ hne, hs]
  rw [ht] at hlast
  exact hab (Option.some.inj hlast).symm

/-- A name carrying a merge suffix is at least as long as the suffix. -/
theorem append_ne_of_length_lt (c s t : String)
    (h : t.data.length < s.data.length) : c ++ s ≠ t := by
  intro he
  have hd : c.data ++ s.data = t.data := by
    rw [← String.data_append c s, he]
  have := congrArg List.length hd
  rw [List.length_append] at this
  omega

theorem string_append_right_cancel (a b s : String) (h : a ++ s = b ++ s) :
    a = b := by
  have hd := congrArg String.data h
  rw [String.data_append, String.data_append] at hd
  exact string_eq_of_data a b (List.append_cancel_right hd)

theorem keys_suffixRow (r : Row) (common : List String) (suf : String) :
    (suffixRow r common suf).map Prod.fst =
      suffixCols (r.map Prod.fst) common suf := by
  unfold suffixRow suffixCols
  rw [List.map_map, List.map_map]
  refine List.map_congr_left ?_
  intro p _
  by_cases h : p.1 ∈ common <;> simp [h]

theorem rowGet_mapCell_self (r : Row) (c : String) (f : Val → Val)
    (hf : f .na = .na) :
    rowGet (mapCell r c f) c = f (rowGet r c) := by
  rw [rowGet, rowGet, lookup_mapCell_self]
  rcases List.lookup c r with _ | v
  · simpa using hf.symm
  · rfl

theorem keys_mapCell (r : Row) (a : String) (f : Val → Val) :
    (mapCell r a f).map Prod.fst = r.map Prod.fst := by
  unfold mapCell
  rw [List.map_map]
  refine List.map_congr_left ?_
  intro p _
  by_cases hp : p.1 = a <;> simp [hp]

theorem rowGet_mapCell_self_of_mem (r : Row) (c : String) (f : Val → Val)
    (h : c ∈ r.map Prod.fst) :
    rowGet (mapCell r c f) c = f (rowGet r c) := by
  rw [rowGet, rowGet, lookup_mapCell_self]
  have hs := lookup_isSome_of_mem r c h
  rcases hl : List.lookup c r with _ | v
  · rw [hl] at hs; exact absurd hs (by simp)
  · rfl

theorem fillZero_coerceNum_num (v : Val) (h1 : v ≠ .inf) (h2 : v ≠ .neginf) :
    ∃ q : ℚ, fillZero (coerceNum v) = .num q := by
  rcases v with q | s | _ | _ | _
  · exact ⟨q, rfl⟩
  · rcases hp : parseQ s with _ | q
    · refine ⟨0, ?_⟩
      simp only [coerceNum]
      rw [hp]
      rfl
    · refine ⟨q, ?_⟩
      simp only [coerceNum]
      rw [hp]
      rfl
  · exact ⟨0, rfl⟩
  · exact absurd rfl h1
  · exact absurd rfl h2

theorem mem_suffixCols_of_not_common (cols common : List String) (suf c : String)
    (h1 : c ∈ cols) (h2 : c ∉ common) : c ∈ suffixCols cols common suf := by
  unfold suffixCols
  exact List.mem_map.mpr ⟨c, h1, by rw [if_neg h2]⟩

theorem not_mem_suffixCols (cols common : List String) (suf c : String)
    (h1 : c ∉ cols ∨ c ∈ common) (hfresh : ∀ d ∈ common, d ++ suf ≠ c) :
    c ∉ suffixCols cols common suf := by
  intro hmem
  rcases List.mem_map.mp hmem with ⟨d, hd, hdc⟩
  by_cases h : d ∈ common
  · rw [if_pos h] at hdc
    exact hfresh d h hdc
  · rw [if_neg h] at hdc
    rcases h1 with h1 | h1
    · exact h1 (hdc ▸ hd)
    · exact h (hdc ▸ h1)

/-- Read, from a merged row, a column that lives on the left side and is
not suffixed (not an overlap name, and no overlap name is renamed onto
it). -/
theorem rowGet_merged_left (lr rest : Row) (common : List String)
    (suf c : String) (hc : c ∉ common)
    (hfresh : ∀ d ∈ common, d ++ suf ≠ c)
    (hmem : c ∈ lr.map Prod.fst) :
    rowGet (suffixRow lr common suf ++ rest) c = rowGet lr c := by
  have hl : List.lookup c (suffixRow lr common suf) = List.lookup c lr := by
    refine lookup_map_name _ lr c c ?_ ?_
    · intro p _ hpc
      by_cases h : p.1 ∈ common
      · rw [if_pos h]
      · rw [if_neg h]
    · intro p _
      by_cases h : p.1 ∈ common
      · rw [if_pos h]
        constructor
        · intro hpc
          exact absurd (show p.1 ++ suf = c from hpc) (hfresh p.1 h)
        · intro hpc
          exact absurd (hpc ▸ h) hc
      · rw [if_neg h]
  have hs := lookup_isSome_of_mem lr c hmem
  rcases hv : List.lookup c lr with _ | v
  · rw [hv] at hs; exact absurd hs (by simp)
  · rw [rowGet, rowGet, lookup_append_of_some _ _ _ _ (hl.trans hv), hv]

/-- Read, from a merged row, a column that lives only on the right side. -/
theorem rowGet_merged_right (lpart rrow : Row) (common : List String)
    (suf c : String) (hnotl : c ∉ lpart.map Prod.fst) (hc : c ∉ common)
    (hfresh : ∀ d ∈ common, d ++ suf ≠ c) :
    rowGet (lpart ++ suffixRow rrow common suf) c = rowGet rrow c := by
  have hl : List.lookup c (suffixRow rrow common suf) = List.lookup c rrow := by
    refine lookup_map_name _ rrow c c ?_ ?_
    · intro p _ hpc
      by_cases h : p.1 ∈ common
      · rw [if_pos h]
      · rw [if_neg h]
    · intro p _
      by_cases h : p.1 ∈ common
      · rw [if_pos h]
        constructor
        · intro hpc
          exact absurd (show p.1 ++ suf = c from hpc) (hfresh p.1 h)
        · intro hpc
          exact absurd (hpc ▸ h) hc
      · rw [if_neg h]
  rw [rowGet, rowGet,
      lookup_append_of_none _ _ _ ((lookup_eq_none_iff lpart c).mpr hnotl), hl]

theorem rowGet_rowDrop_ne (r : Row) (a c : String) (h : c ≠ a) :
    rowGet (rowDrop r a) c = rowGet r c := by
  rw [rowGet, rowGet, lookup_rowDrop_ne r a c h]

theorem keys_rowDrop (r : Row) (a : String) :
    (rowDrop r a).map Prod.fst = (r.map Prod.fst).filter (fun x => x ≠ a) := by
  induction r with
  | nil => rfl
  | cons p tl ih =>
      rw [rowDrop_cons, List.map_cons]
      by_cases hp : p.1 = a
      · rw [if_pos hp, List.filter_cons_of_neg (by simp [hp]), ih]
      · rw [if_neg hp, List.map_cons, List.filter_cons_of_pos (by simp [hp]), ih]

theorem round2_zero : round2 0 = 0 := by
  unfold round2 roundHE
  norm_num

/-- Evaluate the rounded ROI lambda on numeric cells. -/
theorem roiLambda_round_eval (rev pay : ℚ) :
    roundVal2 (roiLambda (.num rev) (.num pay)) =
      .num (if pay = 0 then 0 else round2 (((rev - pay) / pay) * 100)) := by
  unfold roiLambda
  by_cases hp : pay = 0
  · rw [if_neg (by simp [hp]), if_pos hp]
    show Val.num (round2 0) = Val.num 0
    rw [round2_zero]
  · rw [if_pos (show Val.num pay ≠ Val.num 0 from fun h => hp (Val.num.inj h)),
        if_neg hp]
    show roundVal2 (mulVal (divVal (.num (rev - pay)) (.num pay)) (.num 100)) = _
    simp only [divVal, if_neg hp, mulVal, roundVal2]

theorem suffixRow_nil (r : Row) (suf : String) : suffixRow r [] suf = r := by
  unfold suffixRow
  rw [list_map_eq_self_iff]
  intro p _
  rw [if_neg (List.not_mem_nil p.1)]

theorem suffixCols_nil (cols : List String) (suf : String) :
    suffixCols cols [] suf = cols := by
  unfold suffixCols
  rw [list_map_eq_self_iff]
  intro c _
  rw [if_neg (List.not_mem_nil c)]

theorem mem_keys_rowSet_self (r : Row) (c : String) (v : Val) :
    c ∈ (rowSet r c v).map Prod.fst := by
  unfold rowSet
  by_cases hb : (r.any fun p => decide (p.1 = c)) = true
  · rw [if_pos hb, keys_mapCell]
    rcases List.any_eq_true.mp hb with ⟨p, hp, hpc⟩
    exact List.mem_map.mpr ⟨p, hp, of_decide_eq_true hpc⟩
  · rw [if_neg hb, List.map_append]
    exact List.mem_append.mpr (Or.inr (by simp))

theorem mem_keys_rowSet_of (r : Row) (a c : String) (v : Val)
    (h : c ∈ r.map Prod.fst) :
    c ∈ (rowSet r a v).map Prod.fst := by
  unfold rowSet
  by_cases hb : (r.any fun p => decide (p.1 = a)) = true
  · rw [if_pos hb, keys_mapCell]
    exact h
  · rw [if_neg hb, List.map_append]
    exact List.mem_append.mpr (Or.inl h)

theorem commonCols_subset_left (l r : Table) (excl : List String) :
    ∀ c ∈ commonCols l r excl, c ∈ l.cols := by
  intro c hc
  exact (List.mem_filter.mp hc).1

theorem commonCols_subset_right (l r : Table) (excl : List String) :
    ∀ c ∈ commonCols l r excl, c ∈ r.cols := by
  intro c hc
  have h := (List.mem_filter.mp hc).2
  exact (of_decide_eq_true h).1

theorem mapCell_eq_self_iff (r : Row) (c : String) (f : Val → Val) :
    mapCell r c f = r ↔ ∀ p ∈ r, p.1 = c → f p.2 = p.2 := by
  unfold mapCell
  rw [list_map_eq_self_iff]
  constructor
  · intro h p hp hpc
    have h2 := h p hp
    rw [if_pos hpc] at h2
    simpa using congrArg Prod.snd h2
  · intro h p hp
    by_cases hpc : p.1 = c
    · rw [if_pos hpc, h p hp hpc]
    · rw [if_neg hpc]

theorem mapCol_eq_self_iff (t : Table) (c : String) (f : Val → Val) :
    t.mapCol c f = t ↔ ∀ r ∈ t.rows, ∀ p ∈ r, p.1 = c → f p.2 = p.2 := by
  rcases t with ⟨cols, rows⟩
  unfold Table.mapCol
  simp only [Table.mk.injEq, true_and]
  rw [list_map_eq_self_iff]
  constructor
  · intro h r hr
    exact (mapCell_eq_self_iff r c f).mp (h r hr)
  · intro h r hr
    exact (mapCell_eq_self_iff r c f).mpr (h r hr)

theorem cols_influencersAfterSidebar (t : Table) :
    (influencersAfterSidebar t).cols = t.cols := by
  unfold influencersAfterSidebar
  rcases followerColOf t with _ | c <;> rfl

theorem followerColOf_congr (s t : Table) (h : s.cols = t.cols) :
    followerColOf s = followerColOf t := by
  unfold followerColOf
  rw [h]

/-! ## Claim C3 -/

/-- C3: the spec claims no raw table is ever mutated in place.  This is
false for the influencer table: line 112 coerces its follower column in
place, so the raw table is unchanged by the sidebar exactly when there is
no follower column or the numeric coercion fixes every follower cell
(the posts table's date column is parsed in place the same way at
line 148). -/
theorem C3_influencers_mutated_iff_coercion_moves_a_cell (t : Table) :
    influencersAfterSidebar t = t ↔
      (followerColOf t = none ∨
       ∃ c, followerColOf t = some c ∧
         ∀ r ∈ t.rows, ∀ p ∈ r, p.1 = c → coerceNum p.2 = p.2) := by
  rcases h : followerColOf t with _ | c
  · simp [influencersAfterSidebar, h]
  · simp only [influencersAfterSidebar, h]
    rw [mapCol_eq_self_iff]
    constructor
    · intro hh
      exact Or.inr ⟨c, rfl, hh⟩
    · intro hh
      rcases hh with hh | ⟨c', hc', hh⟩
      · exact absurd hh (by simp)
      · rw [Option.some.inj hc']
        exact hh

/-- C3 counterexample: a raw influencer table with a non-numeric follower
cell is not equal to itself after the sidebar step — the pipeline rewrote
the cell to NaN in place. -/
theorem C3_counterexample :
    influencersAfterSidebar exInflBadFollower ≠ exInflBadFollower := by decide

/-! ## Claim C9 -/

/-- C9: for the optional dimensions (product, category, gender) an empty
selection is falsy in Python, so the filter step is skipped entirely and
the result equals the one with no selection at all; for the required
platform and campaign dimensions an empty selection instead filters every
row out. -/
theorem C9_empty_optional_selection_is_no_filter (tr infl : Table)
    (camps plats : List Val) (fr : Option (ℤ × ℤ)) :
    (filteredTracking tr camps (some []) = filteredTracking tr camps none ∧
     filteredInfluencers infl plats (some []) fr (some []) =
       filteredInfluencers infl plats none fr none) ∧
    ((filteredTracking tr [] (some [])).rows = [] ∧
     (filteredInfluencers infl [] (some []) none (some [])).rows = []) := by
  refine ⟨⟨rfl, rfl⟩, ?_, ?_⟩
  · simp [filteredTracking, optActive, Table.filterRows, isin]
  · simp [filteredInfluencers, optActive, Table.filterRows, isin, followerColOf]

/-! ## Claim C7 -/

/-- C7 amended: the top list is at most 5 rows, sorted in non-increasing
(not strictly decreasing — ties are kept) roas order with NaN rows last;
the poor-performer list is at most 5 rows, all with roas < 1, sorted in
non-decreasing roas order; every row of either list is a row of the full
ROAS table; both are total functions, so scarcity never errors. -/
theorem C7_insight_lists_bounded_sorted_subsets (t : Table) :
    ((top_influencers t).rows.length ≤ 5 ∧
     List.Sorted rowLeDesc (top_influencers t).rows ∧
     ∀ r ∈ (top_influencers t).rows, r ∈ t.rows) ∧
    ((poor_roas t).rows.length ≤ 5 ∧
     List.Sorted rowLeAsc (poor_roas t).rows ∧
     ∀ r ∈ (poor_roas t).rows,
       r ∈ t.rows ∧ ltVal (rowGet r "roas") (.num 1) = true) := by
  refine ⟨⟨?_, ?_, ?_⟩, ?_, ?_, ?_⟩
  · simpa [top_influencers] using List.length_take_le 5 _
  · exact List.Pairwise.sublist (List.take_sublist _ _)
      (List.sorted_insertionSort rowLeDesc t.rows)
  · intro r hr
    have h1 : r ∈ List.insertionSort rowLeDesc t.rows :=
      (List.take_sublist _ _).subset hr
    exact (List.perm_insertionSort rowLeDesc t.rows).mem_iff.mp h1
  · simpa [poor_roas] using List.length_take_le 5 _
  · exact List.Pairwise.sublist (List.take_sublist _ _)
      (List.sorted_insertionSort rowLeAsc _)
  · intro r hr
    have h1 : r ∈ List.insertionSort rowLeAsc
        (t.rows.filter (fun r => ltVal (rowGet r "roas") (.num 1))) :=
      (List.take_sublist _ _).subset hr
    have h2 := (List.perm_insertionSort rowLeAsc _).mem_iff.mp h1
    have h3 := List.mem_filter.mp h2
    exact ⟨h3.1, h3.2⟩

/-- C7 counterexample: with two influencers of identical roas 2, the
top-influencer list carries the tied value twice, so it is not sorted
strictly descending as the claim states. -/
theorem C7_counterexample :
    ((top_influencers (roas_df exTracking exInfl exPayoutsTie)).rows.map
        (fun r => rowGet r "roas")) = [.num 2, .num 2] ∧
    strictDescVals
        ((top_influencers (roas_df exTracking exInfl exPayoutsTie)).rows.map
          (fun r => rowGet r "roas")) = false := by
  constructor
  · with_unfolding_all decide
  · with_unfolding_all decide

/-! ## Claim C10 -/

theorem mem_filterRows (t : Table) (p : Row → Bool) (r : Row) :
    r ∈ (t.filterRows p).rows ↔ r ∈ t.rows ∧ p r = true := by
  simp [Table.filterRows, List.mem_filter]

/-- Every row surviving the influencer filters with an active follower
range carries a numeric follower cell. -/
theorem follower_filter_keeps_only_numeric (infl : Table) (c : String)
    (hc : followerColOf infl = some c) (plats : List Val)
    (cats gens : Option (List Val)) (lo hi : ℤ) (r : Row)
    (hr : r ∈ (filteredInfluencers (influencersAfterSidebar infl) plats cats
        (some (lo, hi)) gens).rows) :
    ∃ q : ℚ, rowGet r c = .num q := by
  have hfc : followerColOf (influencersAfterSidebar infl) = some c :=
    (followerColOf_congr _ _ (cols_influencersAfterSidebar infl)).trans hc
  unfold filteredInfluencers at hr
  rw [hfc] at hr
  by_cases hg : optActive gens = true
  · rw [if_pos hg] at hr
    replace hr := ((mem_filterRows _ _ _).mp hr).1
    have h2 := ((mem_filterRows _ _ _).mp hr).2
    rcases hv : rowGet r c with q | s | _ | _ | _ <;>
      rw [hv] at h2 <;> first
        | exact ⟨_, rfl⟩
        | simp [geVal, leVal] at h2
  · rw [if_neg hg] at hr
    have h2 := ((mem_filterRows _ _ _).mp hr).2
    rcases hv : rowGet r c with q | s | _ | _ | _ <;>
      rw [hv] at h2 <;> first
        | exact ⟨_, rfl⟩
        | simp [geVal, leVal] at h2

/-- C10: whenever a follower column exists (so the range filter is
active), every influencer row whose follower value is missing or fails
numeric coercion — NaN after the in-place coercion of line 112 — is
excluded from the filtered influencer table, for every selected range;
equivalently, every surviving row has a numeric follower value. -/
theorem C10_nonnumeric_follower_rows_excluded (infl : Table) (c : String)
    (hc : followerColOf infl = some c) (plats : List Val)
    (cats gens : Option (List Val)) (lo hi : ℤ) :
    (∀ r ∈ (filteredInfluencers (influencersAfterSidebar infl) plats cats
        (some (lo, hi)) gens).rows, ∃ q : ℚ, rowGet r c = .num q) ∧
    (∀ r ∈ infl.rows, coerceNum (rowGet r c) = .na →
        mapCell r c coerceNum ∉
          (filteredInfluencers (influencersAfterSidebar infl) plats cats
            (some (lo, hi)) gens).rows) := by
  refine ⟨fun r hr => follower_filter_keeps_only_numeric infl c hc plats cats
    gens lo hi r hr, ?_⟩
  intro r _ hna habs
  rcases follower_filter_keeps_only_numeric infl c hc plats cats gens lo hi _
    habs with ⟨q, hq⟩
  rw [rowGet_mapCell_self r c coerceNum rfl, hna] at hq
  exact Val.noConfusion hq

/-- C10 witness: on the concrete table with follower cells `1000` and
`"abc"`, the filter with the full default range keeps only numeric
follower rows and drops the `"abc"` row. -/
theorem C10_witness :
    (∀ r ∈ (filteredInfluencers (influencersAfterSidebar exInflBadFollower)
        [.str "instagram"] none (some (0, 2000000)) none).rows,
      ∃ q : ℚ, rowGet r "followers" = .num q) ∧
    (∀ r ∈ exInflBadFollower.rows, coerceNum (rowGet r "followers") = .na →
        mapCell r "followers" coerceNum ∉
          (filteredInfluencers (influencersAfterSidebar exInflBadFollower)
            [.str "instagram"] none (some (0, 2000000)) none).rows) :=
  C10_nonnumeric_follower_rows_excluded exInflBadFollower "followers"
    (by with_unfolding_all decide) [.str "instagram"] none none 0 2000000

/-! ## Claim C2 -/

theorem contains_eq_true_iff (l : List String) (a : String) :
    l.contains a = true ↔ a ∈ l := by simp

theorem contains_eq_false_iff (l : List String) (a : String) :
    l.contains a = false ↔ a ∉ l := by
  rw [← Bool.not_eq_true, not_iff_not, contains_eq_true_iff]

/-- C2 amended: when the payout table carries neither `total_payout` nor
`payout_amount`, the check at lines 348-350 issues `st.stop()` outside
any try block, so the whole script halts at the ROI section: the ROAS
section (whose own required-column check fails inside its try block)
reports an error and yields no table, and ROI, incremental ROAS, insights
and the summary are all never produced — sibling metrics are *not*
isolated from this failure. -/
theorem C2_missing_payout_column_halts_pipeline
    (inflT postsT trT payT : Table) (sel : Selections)
    (hplat : "platform" ∈ inflT.normCols.cols)
    (hcamp : "campaign" ∈ trT.normCols.cols)
    (hpid : "influencer_id" ∈ postsT.normCols.cols)
    (hid : "id" ∈ (influencersAfterSidebar inflT.normCols).cols)
    (hno1 : "total_payout" ∉ payT.normCols.cols)
    (hno2 : "payout_amount" ∉ payT.normCols.cols) :
    runPipeline inflT postsT trT payT sel =
      ⟨none, none, none, none, none, true⟩ := by
  have c1 := (contains_eq_true_iff _ _).mpr hplat
  have c2 := (contains_eq_true_iff _ _).mpr hcamp
  have c3 := (contains_eq_true_iff _ _).mpr hpid
  have c4 := (contains_eq_true_iff _ _).mpr hid
  have c5 := (contains_eq_false_iff _ _).mpr hno1
  have c6 := (contains_eq_false_iff _ _).mpr hno2
  simp only [runPipeline, payouts_roi, roasStep, c1, c2, c3, c4, c5, c6,
    Bool.and_true, Bool.true_and, Bool.and_false, Bool.false_and,
    Bool.not_true, Bool.not_false, if_true, if_false, List.all_cons,
    List.all_nil, Bool.false_eq_true, if_neg, Bool.true_eq_false]

/-- C2 witness: concrete tables satisfying every hypothesis of the
amended claim. -/
theorem C2_witness :
    runPipeline exInfl exPosts exTracking exPayoutsNoAmount exSel =
      ⟨none, none, none, none, none, true⟩ :=
  C2_missing_payout_column_halts_pipeline exInfl exPosts exTracking
    exPayoutsNoAmount exSel (by with_unfolding_all decide)
    (by with_unfolding_all decide) (by with_unfolding_all decide)
    (by with_unfolding_all decide) (by with_unfolding_all decide)
    (by with_unfolding_all decide)

/-- C2 counterexample: with the payout columns missing, the tracking
table still carries everything the incremental-ROAS metric needs, yet the
pipeline halts and produces no incremental table (and no insights or
summary) — contradicting the claim that only the ROI metric is omitted
while every sibling computation still runs. -/
theorem C2_counterexample :
    (runPipeline exInfl exPosts exTracking exPayoutsNoAmount exSel).incremental
        = none ∧
    (runPipeline exInfl exPosts exTracking exPayoutsNoAmount exSel).insights
        = none ∧
    (runPipeline exInfl exPosts exTracking exPayoutsNoAmount exSel).summary
        = none ∧
    (runPipeline exInfl exPosts exTracking exPayoutsNoAmount exSel).halted
        = true := by
  refine ⟨?_, ?_, ?_, ?_⟩ <;> with_unfolding_all decide

/-! ## Claim C5 -/

theorem mem_innerMergeKey (l r : Table) (key sufL sufR : String) (row : Row)
    (h : row ∈ (innerMergeKey l r key sufL sufR).rows) :
    ∃ lr ∈ l.rows, ∃ rr ∈ r.rows,
      rowGet rr key = rowGet lr key ∧
      row = suffixRow lr (commonCols l r [key]) sufL ++
            suffixRow (rowDrop rr key) (commonCols l r [key]) sufR := by
  unfold innerMergeKey at h
  rcases List.mem_flatMap.mp h with ⟨lr, hlr, hrow⟩
  rcases List.mem_map.mp hrow with ⟨rr, hrr, heq⟩
  have h2 := List.mem_filter.mp hrr
  exact ⟨lr, hlr, rr, h2.1, of_decide_eq_true h2.2, heq.symm⟩

/-- C5: every ROI-table row produced from the inner join of filtered
tracking with the (alias-normalized) payouts satisfies the guarded,
rounded ROI formula on its coerced numeric `revenue` and `total_payout`
cells — with non-numeric values having been coerced and zero-filled, and
`roi (%) = 0` when `total_payout = 0`.  (Hypotheses scope the statement
to schemas the script survives: the merge keeps the two column names
un-suffixed, and the raw cells are not float infinities.) -/
theorem C5_roi_formula (ft proi : Table)
    (hwf1 : ft.WF) (hwf2 : proi.WF)
    (hrev1 : "revenue" ∈ ft.cols) (hrev2 : "revenue" ∉ proi.cols)
    (hpay1 : "total_payout" ∈ proi.cols) (hpay2 : "total_payout" ∉ ft.cols)
    (hfin1 : ∀ r ∈ ft.rows,
      rowGet r "revenue" ≠ .inf ∧ rowGet r "revenue" ≠ .neginf)
    (hfin2 : ∀ r ∈ proi.rows,
      rowGet r "total_payout" ≠ .inf ∧ rowGet r "total_payout" ≠ .neginf) :
    ∀ row ∈ (roi_df ft proi).rows, ∃ rev pay : ℚ,
      rowGet row "revenue" = .num rev ∧
      rowGet row "total_payout" = .num pay ∧
      rowGet row "roi (%)" =
        .num (if pay = 0 then 0 else round2 (((rev - pay) / pay) * 100)) := by
  intro row hrow
  simp only [roi_df, Table.fillna0, Table.mapCol, Table.setCol] at hrow
  rcases List.mem_map.mp hrow with ⟨r3, h3, hrow4⟩
  rcases List.mem_map.mp h3 with ⟨r2, h2, hrow3⟩
  rcases List.mem_map.mp h2 with ⟨r2a, h2a, hrow2⟩
  rcases List.mem_map.mp h2a with ⟨r1, h1, hrow2a⟩
  rcases List.mem_map.mp h1 with ⟨r1a, h1a, hrow1⟩
  rcases List.mem_map.mp h1a with ⟨r0, h0, hrow1a⟩
  rcases mem_innerMergeKey ft proi "influencer_id" "_x" "_y" r0 h0 with
    ⟨lr, hlr, rr, hrr, _, hr0⟩
  have hcrev : "revenue" ∉ commonCols ft proi ["influencer_id"] :=
    fun h => hrev2 (commonCols_subset_right ft proi _ _ h)
  have hcpay : "total_payout" ∉ commonCols ft proi ["influencer_id"] :=
    fun h => hpay2 (commonCols_subset_left ft proi _ _ h)
  have freshx_rev : ∀ d ∈ commonCols ft proi ["influencer_id"],
      d ++ "_x" ≠ "revenue" :=
    fun d _ => append_ne_of_last_ne d "_x" "revenue" 'x' 'e'
      (by decide) (by decide) (by decide)
  have freshx_pay : ∀ d ∈ commonCols ft proi ["influencer_id"],
      d ++ "_x" ≠ "total_payout" :=
    fun d _ => append_ne_of_last_ne d "_x" "total_payout" 'x' 't'
      (by decide) (by decide) (by decide)
  have freshy_pay : ∀ d ∈ commonCols ft proi ["influencer_id"],
      d ++ "_y" ≠ "total_payout" :=
    fun d _ => append_ne_of_last_ne d "_y" "total_payout" 'y' 't'
      (by decide) (by decide) (by decide)
  have hlrkeys : lr.map Prod.fst = ft.cols := hwf1 lr hlr
  have hrrkeys : rr.map Prod.fst = proi.cols := hwf2 rr hrr
  -- the merged row's revenue cell is the tracking row's revenue cell
  have hr0rev : rowGet r0 "revenue" = rowGet lr "revenue" := by
    rw [hr0]
    exact rowGet_merged_left lr _ _ "_x" "revenue" hcrev freshx_rev
      (by rw [hlrkeys]; exact hrev1)
  -- the merged row's total_payout cell is the payout row's cell
  have hr0pay : rowGet r0 "total_payout" = rowGet rr "total_payout" := by
    rw [hr0]
    have hnotl : "total_payout" ∉ (suffixRow lr (commonCols ft proi
        ["influencer_id"]) "_x").map Prod.fst := by
      rw [keys_suffixRow, hlrkeys]
      exact not_mem_suffixCols _ _ _ _ (Or.inl hpay2) freshx_pay
    rw [rowGet_merged_right _ _ _ "_y" "total_payout" hnotl hcpay freshy_pay,
        rowGet_rowDrop_ne rr _ _ (by decide)]
  -- key sets along the coercion chain
  have hm0rev : "revenue" ∈ r0.map Prod.fst := by
    rw [hr0, List.map_append]
    refine List.mem_append.mpr (Or.inl ?_)
    rw [keys_suffixRow, hlrkeys]
    exact mem_suffixCols_of_not_common _ _ _ _ hrev1 hcrev
  have hm0pay : "total_payout" ∈ r0.map Prod.fst := by
    rw [hr0, List.map_append]
    refine List.mem_append.mpr (Or.inr ?_)
    rw [keys_suffixRow, keys_rowDrop, hrrkeys]
    refine mem_suffixCols_of_not_common _ _ _ _ ?_ hcpay
    exact List.mem_filter.mpr ⟨hpay1, by decide⟩
  -- make the whole row chain explicit
  subst hrow1a hrow1 hrow2a hrow2 hrow3 hrow4
  set cRow := mapCell (mapCell (mapCell (mapCell r0 "revenue" coerceNum)
    "revenue" fillZero) "total_payout" coerceNum) "total_payout" fillZero
    with hcRow
  -- evaluate the coerced cells
  have hrevcell : rowGet cRow "revenue" =
      fillZero (coerceNum (rowGet lr "revenue")) := by
    rw [hcRow, rowGet_mapCell_ne _ _ _ _ (by decide),
        rowGet_mapCell_ne _ _ _ _ (by decide),
        rowGet_mapCell_self_of_mem _ _ _ (by rw [keys_mapCell]; exact hm0rev),
        rowGet_mapCell_self_of_mem _ _ _ hm0rev, hr0rev]
  have hpaycell : rowGet cRow "total_payout" =
      fillZero (coerceNum (rowGet rr "total_payout")) := by
    rw [hcRow, rowGet_mapCell_self_of_mem _ _ _
          (by rw [keys_mapCell, keys_mapCell, keys_mapCell]; exact hm0pay),
        rowGet_mapCell_self_of_mem _ _ _
          (by rw [keys_mapCell, keys_mapCell]; exact hm0pay),
        rowGet_mapCell_ne _ _ _ _ (by decide),
        rowGet_mapCell_ne _ _ _ _ (by decide), hr0pay]
  rcases fillZero_coerceNum_num (rowGet lr "revenue")
    (hfin1 lr hlr).1 (hfin1 lr hlr).2 with ⟨rev, hrev⟩
  rcases fillZero_coerceNum_num (rowGet rr "total_payout")
    (hfin2 rr hrr).1 (hfin2 rr hrr).2 with ⟨pay, hpay⟩
  rw [hrev] at hrevcell
  rw [hpay] at hpaycell
  refine ⟨rev, pay, ?_, ?_, ?_⟩
  · rw [rowGet_mapCell_ne _ _ _ _ (by decide),
        rowGet_rowSet_ne _ _ _ _ (by decide), hrevcell]
  · rw [rowGet_mapCell_ne _ _ _ _ (by decide),
        rowGet_rowSet_ne _ _ _ _ (by decide), hpaycell]
  · rw [rowGet, lookup_mapCell_self, lookup_rowSet_self]
    show roundVal2 (roiLambda (rowGet cRow "revenue")
      (rowGet cRow "total_payout")) = _
    rw [hrevcell, hpaycell, roiLambda_round_eval]

set_option maxRecDepth 100000 in
/-- C5 witness: the concrete tracking and payout tables satisfy every
hypothesis, so their concrete ROI row obeys the guarded formula. -/
theorem C5_witness :
    ∃ rev pay : ℚ,
      rowGet exRoiRow "revenue" = .num rev ∧
      rowGet exRoiRow "total_payout" = .num pay ∧
      rowGet exRoiRow "roi (%)" =
        .num (if pay = 0 then 0 else round2 (((rev - pay) / pay) * 100)) :=
  C5_roi_formula exTracking exPayouts
    (by unfold Table.WF; with_unfolding_all decide)
    (by unfold Table.WF; with_unfolding_all decide)
    (by with_unfolding_all decide) (by with_unfolding_all decide)
    (by with_unfolding_all decide) (by with_unfolding_all decide)
    (by with_unfolding_all decide) (by with_unfolding_all decide)
    exRoiRow (by with_unfolding_all decide)

/-! ## Claim C8 -/

/-- C8: in the incremental-ROAS merge, when both the (cleaned) tracking
and payout tables carry an `orders` column, the merge suffixes them, the
tracking-side `orders_tracking` is renamed back to `orders`, and the
payout-side `orders_payouts` is dropped: every merged row's `orders`
value is its tracking row's `orders` value, and no payout-side orders
column remains.  (The freshness hypotheses rule out raw tables that
already carry the suffix artefact names.) -/
theorem C8_tracking_orders_win (tc pc : Table)
    (hwf1 : tc.WF) (hwf2 : pc.WF)
    (ho1 : "orders" ∈ tc.cols) (ho2 : "orders" ∈ pc.cols)
    (hfr : ∀ s ∈ (["orders_tracking", "orders_payouts",
        "orders_x", "orders_y"] : List String), s ∉ tc.cols ∧ s ∉ pc.cols) :
    "orders_payouts" ∉ (merged_df tc pc).cols ∧
    ∀ row ∈ (merged_df tc pc).rows, ∃ lr ∈ tc.rows, ∃ rr ∈ pc.rows,
      rowGet rr "influencer_id" = rowGet lr "influencer_id" ∧
      rowGet row "orders" = rowGet lr "orders" := by
  have hcommon : "orders" ∈ commonCols tc pc ["influencer_id"] :=
    List.mem_filter.mpr ⟨ho1, decide_eq_true ⟨ho2, by decide⟩⟩
  set m0 := innerMergeKey tc pc "influencer_id" "_tracking" "_payouts" with hm0
  have hm0cols : m0.cols =
      suffixCols tc.cols (commonCols tc pc ["influencer_id"]) "_tracking" ++
      suffixCols (pc.cols.filter (fun c => c ≠ "influencer_id"))
        (commonCols tc pc ["influencer_id"]) "_payouts" := rfl
  -- condition of the rename branch
  have h_ot : "orders_tracking" ∈ m0.cols := by
    rw [hm0cols]
    refine List.mem_append.mpr (Or.inl ?_)
    exact List.mem_map.mpr ⟨"orders", ho1, by rw [if_pos hcommon]; decide⟩
  -- condition of the first drop branch
  have h_op : "orders_payouts" ∈ (m0.renameCol "orders_tracking" "orders").cols := by
    show "orders_payouts" ∈ m0.cols.map _
    refine List.mem_map.mpr ⟨"orders_payouts", ?_, by rw [if_neg (by decide)]⟩
    rw [hm0cols]
    refine List.mem_append.mpr (Or.inr ?_)
    refine List.mem_map.mpr ⟨"orders", ?_, by rw [if_pos hcommon]; decide⟩
    exact List.mem_filter.mpr ⟨ho2, by decide⟩
  -- the orders_y drop never fires
  have h_oy : "orders_y" ∉
      ((m0.renameCol "orders_tracking" "orders").dropCol "orders_payouts").cols := by
    intro hmem
    have h1 : "orders_y" ∈ (m0.renameCol "orders_tracking" "orders").cols :=
      (List.mem_filter.mp hmem).1
    rcases List.mem_map.mp h1 with ⟨x, hx, hxy⟩
    by_cases hxo : x = "orders_tracking"
    · rw [if_pos hxo] at hxy
      exact absurd hxy (by decide)
    · rw [if_neg hxo] at hxy
      subst hxy
      rw [hm0cols] at hx
      rcases List.mem_append.mp hx with hx | hx
      · exact not_mem_suffixCols _ _ _ _
          (Or.inl (hfr "orders_y" (by decide)).1)
          (fun d _ => append_ne_of_last_ne d "_tracking" "orders_y" 'g' 'y'
            (by decide) (by decide) (by decide)) hx
      · refine not_mem_suffixCols _ _ _ _
          (Or.inl ?_)
          (fun d _ => append_ne_of_last_ne d "_payouts" "orders_y" 's' 'y'
            (by decide) (by decide) (by decide)) hx
        intro hmem2
        exact (hfr "orders_y" (by decide)).2 (List.mem_filter.mp hmem2).1
  -- resolve merged_df to its exercised branch
  have hMD : merged_df tc pc =
      (m0.renameCol "orders_tracking" "orders").dropCol "orders_payouts" := by
    rw [merged_df]
    rw [if_pos ((contains_eq_true_iff _ _).mpr h_ot),
        if_pos ((contains_eq_true_iff _ _).mpr h_op),
        if_neg (by rw [contains_eq_true_iff]; exact h_oy)]
  constructor
  · rw [hMD]
    intro hmem
    have := (List.mem_filter.mp hmem).2
    exact absurd (of_decide_eq_true this) (by simp)
  · intro row hrow
    rw [hMD] at hrow
    rcases List.mem_map.mp hrow with ⟨r1, hr1, hrow1⟩
    rcases List.mem_map.mp hr1 with ⟨r0, hr0mem, hrow0⟩
    rcases mem_innerMergeKey tc pc "influencer_id" "_tracking" "_payouts" r0
      hr0mem with ⟨lr, hlr, rr, hrr, hkey, hr0⟩
    refine ⟨lr, hlr, rr, hrr, hkey, ?_⟩
    -- no entry of the merged row is named "orders" before the rename
    have horders_not : "orders" ∉ r0.map Prod.fst := by
      rw [hr0, List.map_append, keys_suffixRow, keys_suffixRow, keys_rowDrop,
          hwf1 lr hlr, hwf2 rr hrr]
      intro hmem
      rcases List.mem_append.mp hmem with hx | hx
      · exact not_mem_suffixCols _ _ _ _ (Or.inr hcommon)
          (fun d _ => append_ne_of_length_lt d "_tracking" "orders"
            (by decide)) hx
      · exact not_mem_suffixCols _ _ _ _ (Or.inr hcommon)
          (fun d _ => append_ne_of_length_lt d "_payouts" "orders"
            (by decide)) hx
    -- the rename maps exactly the tracking-side orders onto "orders"
    have hren : List.lookup "orders" (rowRename r0 "orders_tracking" "orders")
        = List.lookup "orders_tracking" r0 := by
      refine lookup_map_name _ r0 "orders" "orders_tracking" ?_ ?_
      · intro p _ hpc
        by_cases hp : p.1 = "orders_tracking"
        · rw [if_pos hp]
        · rw [if_neg hp]
      · intro p hp
        by_cases hpo : p.1 = "orders_tracking"
        · rw [if_pos hpo]
          exact ⟨fun _ => hpo, fun _ => rfl⟩
        · rw [if_neg hpo]
          constructor
          · intro hpc
            exact absurd (List.mem_map.mpr ⟨p, hp, hpc⟩) horders_not
          · intro hpc
            exact absurd hpc hpo
    -- reading "orders_tracking" from the merged row finds lr's "orders"
    have hread : List.lookup "orders_tracking" r0 = List.lookup "orders" lr := by
      rw [hr0]
      have hleft : List.lookup "orders_tracking"
          (suffixRow lr (commonCols tc pc ["influencer_id"]) "_tracking") =
          List.lookup "orders" lr := by
        refine lookup_map_name _ lr "orders_tracking" "orders" ?_ ?_
        · intro p _ hpc
          by_cases hp : p.1 ∈ commonCols tc pc ["influencer_id"]
          · rw [if_pos hp]
          · rw [if_neg hp]
        · intro p hp
          have hptc : p.1 ∈ tc.cols := by
            rw [← hwf1 lr hlr]
            exact List.mem_map.mpr ⟨p, hp, rfl⟩
          by_cases hc : p.1 ∈ commonCols tc pc ["influencer_id"]
          · rw [if_pos hc]
            constructor
            · intro hpc
              exact string_append_right_cancel p.1 "orders" "_tracking"
                (hpc.trans (show ("orders_tracking":String) =
                  "orders" ++ "_tracking" by decide))
            · intro hpc
              rw [hpc]
              exact (show ("orders":String) ++ "_tracking" =
                "orders_tracking" by decide)
          · rw [if_neg hc]
            constructor
            · intro hpc
              exact absurd (hpc ▸ hptc) (hfr "orders_tracking" (by decide)).1
            · intro hpc
              exact absurd (hpc ▸ hc) (fun hh => hh hcommon)
      have hs := lookup_isSome_of_mem lr "orders" (by rw [hwf1 lr hlr]; exact ho1)
      rcases hv : List.lookup "orders" lr with _ | v
      · rw [hv] at hs; exact absurd hs (by simp)
      · exact lookup_append_of_some _ _ _ _ (hleft.trans hv)
    rw [← hrow1, ← hrow0, rowGet_rowDrop_ne _ _ _ (by decide),
        rowGet, rowGet, hren, hread]

/-- C8 witness: both concrete tables carry an `orders` column; the merged
frame drops the payout-side orders and keeps the tracking-side values. -/
theorem C8_witness :
    "orders_payouts" ∉ (merged_df exTracking exPayouts).cols ∧
    ∀ row ∈ (merged_df exTracking exPayouts).rows, ∃ lr ∈ exTracking.rows,
      ∃ rr ∈ exPayouts.rows,
        rowGet rr "influencer_id" = rowGet lr "influencer_id" ∧
        rowGet row "orders" = rowGet lr "orders" :=
  C8_tracking_orders_win exTracking exPayouts
    (by unfold Table.WF; with_unfolding_all decide)
    (by unfold Table.WF; with_unfolding_all decide)
    (by with_unfolding_all decide) (by with_unfolding_all decide)
    (by with_unfolding_all decide)

/-! ## Claim C6 -/

theorem mem_groupSum (t : Table) (key : String) (aggCols : List String)
    (row : Row) (h : row ∈ (groupSum t key aggCols).rows) :
    ∃ k, row = (key, k) :: aggCols.map (fun c =>
      (c, sumVals ((t.rows.filter (fun r => rowGet r key = k)).map
        (fun r => rowGet r c)))) := by
  unfold groupSum at h
  rcases List.mem_map.mp h with ⟨k, _, heq⟩
  exact ⟨k, heq.symm⟩

/-- Evaluate the clamped, rounded iROAS division on numeric cells: both
infinities (orders 0, revenue nonzero) and NaN (0/0) become 0. -/
theorem iroas_round_eval (rev o : ℚ) :
    roundVal2 (clampNonfinite (divVal (.num rev) (.num o))) =
      .num (if o = 0 then 0 else round2 (rev / o)) := by
  by_cases ho : o = 0
  · rw [if_pos ho]
    simp only [divVal, if_pos ho]
    rcases lt_trichotomy rev 0 with h | h | h
    · rw [if_neg (not_lt.mpr h.le), if_pos h]
      show Val.num (round2 0) = Val.num 0
      rw [round2_zero]
    · rw [if_neg (by rw [h]; exact lt_irrefl 0), if_neg (by rw [h]; exact lt_irrefl 0)]
      show Val.num (round2 0) = Val.num 0
      rw [round2_zero]
    · rw [if_pos h]
      show Val.num (round2 0) = Val.num 0
      rw [round2_zero]
  · rw [if_neg ho]
    simp only [divVal, if_neg ho, clampNonfinite, roundVal2]

set_option maxHeartbeats 2000000 in
/-- C6: every incremental-ROAS row has numeric summed `orders` and
`revenue` cells (the merge columns are numerically coerced and NaN-filled
before aggregation), and its `iROAS` equals `round(revenue / orders, 2)`
when orders is nonzero and `0` when orders is 0 — never an infinity, even
with positive revenue.  (The column hypotheses mirror the script's own
required-column check and the schemas that reach this computation.) -/
theorem C6_incremental_roas_formula (tc pc : Table)
    (_hreq : "influencer_id" ∈ tc.cols ∧ "revenue" ∈ tc.cols ∧
      "orders" ∈ tc.cols)
    (_hc1 : "revenue" ∉ pc.cols) (_hc2 : "total_payout" ∉ tc.cols)
    (_hc3 : "total_payout" ∈ pc.cols) :
    ∀ row ∈ (incremental_df tc pc).rows, ∃ o rev : ℚ,
      rowGet row "orders" = .num o ∧ rowGet row "revenue" = .num rev ∧
      rowGet row "iROAS" = .num (if o = 0 then 0 else round2 (rev / o)) := by
  intro row hrow
  simp only [incremental_df, Table.mapCol, Table.fillna0, Table.setCol] at hrow
  rcases List.mem_map.mp hrow with ⟨r3, h3, hrow4⟩
  rcases List.mem_map.mp h3 with ⟨r2, h2, hrow3⟩
  rcases List.mem_map.mp h2 with ⟨grow, hg, hrow2⟩
  rcases mem_groupSum _ _ _ grow hg with ⟨k, hgrow⟩
  have hO : ∃ o : ℚ, rowGet grow "orders" = .num o := by
    rw [hgrow, List.map_cons, List.map_cons, List.map_cons, List.map_nil,
        rowGet_cons,
        if_neg (show ¬ ("orders":String) = "influencer_id" by decide),
        rowGet_cons, if_pos (show ("orders":String) = "orders" from rfl)]
    exact ⟨_, rfl⟩
  have hRev : ∃ rev : ℚ, rowGet grow "revenue" = .num rev := by
    rw [hgrow, List.map_cons, List.map_cons, List.map_cons, List.map_nil,
        rowGet_cons,
        if_neg (show ¬ ("revenue":String) = "influencer_id" by decide),
        rowGet_cons, if_neg (show ¬ ("revenue":String) = "orders" by decide),
        rowGet_cons, if_pos (show ("revenue":String) = "revenue" from rfl)]
    exact ⟨_, rfl⟩
  rcases hO with ⟨o, ho⟩
  rcases hRev with ⟨rev, hrev⟩
  subst hrow2 hrow3 hrow4
  refine ⟨o, rev, ?_, ?_, ?_⟩
  · rw [rowGet_mapCell_ne _ _ _ _ (by decide),
        rowGet_mapCell_ne _ _ _ _ (by decide),
        rowGet_rowSet_ne _ _ _ _ (by decide), ho]
  · rw [rowGet_mapCell_ne _ _ _ _ (by decide),
        rowGet_mapCell_ne _ _ _ _ (by decide),
        rowGet_rowSet_ne _ _ _ _ (by decide), hrev]
  · rw [rowGet, lookup_mapCell_self, lookup_mapCell_self, lookup_rowSet_self]
    show roundVal2 (clampNonfinite (divVal (rowGet grow "revenue")
      (rowGet grow "orders"))) = _
    rw [hrev, ho, iroas_round_eval]

set_option maxRecDepth 100000 in
/-- C6 witness: on the concrete tables (influencer 1 with 4 orders and
1000 revenue), the concrete incremental-ROAS row obeys the clamped
formula. -/
theorem C6_witness :
    ∃ o rev : ℚ,
      rowGet exIncrRow "orders" = .num o ∧
      rowGet exIncrRow "revenue" = .num rev ∧
      rowGet exIncrRow "iROAS" = .num (if o = 0 then 0 else round2 (rev / o)) :=
  C6_incremental_roas_formula exTracking exPayouts
    (by refine ⟨?_, ?_, ?_⟩ <;> with_unfolding_all decide)
    (by with_unfolding_all decide) (by with_unfolding_all decide)
    (by with_unfolding_all decide)
    exIncrRow (by with_unfolding_all decide)

/-! ## Claim C1 -/

theorem mem_leftMergeKey (l r : Table) (key : String) (row : Row)
    (h : row ∈ (leftMergeKey l r key).rows) :
    ∃ lrow ∈ l.rows,
      (row = suffixRow lrow (commonCols l r [key]) "_x" ++
        (suffixCols (r.cols.filter (fun c => c ≠ key))
          (commonCols l r [key]) "_y").map (fun c => (c, Val.na)) ∨
       ∃ rr ∈ r.rows, rowGet rr key = rowGet lrow key ∧
         row = suffixRow lrow (commonCols l r [key]) "_x" ++
               suffixRow (rowDrop rr key) (commonCols l r [key]) "_y") := by
  unfold leftMergeKey at h
  rcases List.mem_flatMap.mp h with ⟨lrow, hl, hrow⟩
  refine ⟨lrow, hl, ?_⟩
  rcases hm : List.filter (fun rr => decide (rowGet rr key = rowGet lrow key))
      r.rows with _ | ⟨rr0, ms⟩
  · rw [hm] at hrow
    exact Or.inl (List.mem_singleton.mp hrow)
  · rw [hm] at hrow
    rcases List.mem_map.mp hrow with ⟨rr, hrr, heq⟩
    have hrr2 : rr ∈ List.filter
        (fun rr => decide (rowGet rr key = rowGet lrow key)) r.rows := by
      rw [hm]; exact hrr
    have h3 := List.mem_filter.mp hrr2
    exact Or.inr ⟨rr, h3.1, of_decide_eq_true h3.2, heq.symm⟩

theorem mem_leftMergeLR (l r : Table) (kl kr : String) (row : Row)
    (h : row ∈ (leftMergeLR l r kl kr).rows) :
    ∃ lrow ∈ l.rows, ∃ rest : Row,
      row = suffixRow lrow (commonCols l r []) "_x" ++ rest := by
  unfold leftMergeLR at h
  rcases List.mem_flatMap.mp h with ⟨lrow, hl, hrow⟩
  rcases hm : List.filter (fun rr => decide (rowGet rr kr = rowGet lrow kl))
      r.rows with _ | ⟨rr0, ms⟩
  · rw [hm] at hrow
    exact ⟨lrow, hl, _, List.mem_singleton.mp hrow⟩
  · rw [hm] at hrow
    rcases List.mem_map.mp hrow with ⟨rr, _, heq⟩
    exact ⟨lrow, hl, _, heq.symm⟩

/-- Every revenue-summary row is a two-entry row: the group key and the
numeric revenue sum renamed to `total_revenue`. -/
theorem revenue_df_row_shape (ft : Table) (rr : Row)
    (h : rr ∈ (revenue_df ft).rows) :
    ∃ k : Val, ∃ q : ℚ,
      rr = [("influencer_id", k), ("total_revenue", .num q)] := by
  unfold revenue_df Table.renameCol at h
  rcases List.mem_map.mp h with ⟨g, hgmem, hge⟩
  rcases mem_groupSum _ _ _ g hgmem with ⟨k, hk⟩
  refine ⟨k, ((ft.rows.filter
      (fun r => decide (rowGet r "influencer_id" = k))).map
        (fun r => rowGet r "revenue")).foldl
          (fun a v => match v with | .num q => a + q | _ => a) 0, ?_⟩
  rw [← hge, hk]
  rfl

/-- Evaluate the unguarded, rounded ROAS division on numeric cells:
division by zero escapes as `inf`, `-inf` or NaN. -/
theorem roas_round_eval (rv p : ℚ) :
    roundVal2 (divVal (.num rv) (.num p)) =
      (if p = 0
        then (if 0 < rv then Val.inf else if rv < 0 then Val.neginf else Val.na)
        else .num (round2 (rv / p))) := by
  by_cases hp : p = 0
  · rw [if_pos hp]
    simp only [divVal, if_pos hp]
    rcases lt_trichotomy rv 0 with h | h | h
    · rw [if_neg (not_lt.mpr h.le), if_pos h]
      rfl
    · rw [if_neg (show ¬ (0:ℚ) < rv by rw [h]; exact lt_irrefl 0),
          if_neg (show ¬ rv < (0:ℚ) by rw [h]; exact lt_irrefl 0)]
      rfl
    · rw [if_pos h]
      rfl
  · rw [if_neg hp]
    simp only [divVal, if_neg hp, roundVal2]

/-- C1 amended: a ROAS row with numeric `total_payout = p` always has a
numeric `total_revenue = rv` (the revenue sum, or 0 filled in for a
payout row with no matching tracking revenue), and
`roas = round(rv / p, 2)` when `p ≠ 0`; but when `p = 0` the unguarded
pandas division yields `inf` (rv > 0), `-inf` (rv < 0) or NaN (rv = 0) —
never 0, though no exception is raised. -/
theorem C1_roas_division_unguarded (ft fi payouts : Table)
    (hwf : payouts.WF) (hpay : "total_payout" ∈ payouts.cols)
    (htr : "total_revenue" ∉ payouts.cols) :
    ∀ row ∈ (roas_df ft fi payouts).rows, ∀ p : ℚ,
      rowGet row "total_payout" = .num p →
      ∃ rv : ℚ, rowGet row "total_revenue" = .num rv ∧
        rowGet row "roas" = (if p = 0
          then (if 0 < rv then Val.inf else if rv < 0 then Val.neginf
            else Val.na)
          else .num (round2 (rv / p))) := by
  intro row hrow p hp
  simp only [roas_df] at hrow
  rcases mem_leftMergeLR _ _ _ _ row hrow with ⟨t2row, ht2, rest, hrowE⟩
  simp only [Table.setCol, Table.fillna0, Table.mapCol] at ht2
  rcases List.mem_map.mp ht2 with ⟨t1row, ht1, ht2eq⟩
  rcases List.mem_map.mp ht1 with ⟨t0row, ht0, ht1eq⟩
  rcases mem_leftMergeKey _ _ _ _ ht0 with ⟨lrow, hlrow, hcase⟩
  have hlr2 : lrow ∈ payouts.rows := ((mem_filterRows _ _ _).mp hlrow).1
  have hlrkeys : lrow.map Prod.fst = payouts.cols := hwf lrow hlr2
  -- no shared non-key column between payouts and the revenue summary
  have hcom : commonCols (filtered_payouts payouts fi) (revenue_df ft)
      ["influencer_id"] = [] := by
    rw [List.eq_nil_iff_forall_not_mem]
    intro c hc
    have h1 : c ∈ payouts.cols := commonCols_subset_left _ _ _ c hc
    have h2 := commonCols_subset_right _ _ _ c hc
    have h3 := (List.mem_filter.mp hc).2
    have h4 : c ∉ (["influencer_id"] : List String) :=
      (of_decide_eq_true h3).2
    have h5 : (revenue_df ft).cols =
        ["influencer_id", "total_revenue"] := rfl
    rw [h5] at h2
    rcases List.mem_cons.mp h2 with h2 | h2
    · exact h4 (by rw [h2]; exact List.mem_singleton.mpr rfl)
    · exact htr ((List.mem_singleton.mp h2) ▸ h1)
  rw [hcom, suffixRow_nil] at hcase
  -- per-branch facts about the first-merge row
  have hfacts : rowGet t0row "total_payout" = rowGet lrow "total_payout" ∧
      (∃ rv : ℚ, fillZero (rowGet t0row "total_revenue") = .num rv) ∧
      "total_revenue" ∈ t0row.map Prod.fst ∧
      "total_payout" ∈ t0row.map Prod.fst := by
    have hmtp : "total_payout" ∈ lrow.map Prod.fst := by
      rw [hlrkeys]; exact hpay
    have hntr : "total_revenue" ∉ lrow.map Prod.fst := by
      rw [hlrkeys]; exact htr
    rcases hcase with hA | ⟨rr, hrr, _, hB⟩
    · rw [suffixCols_nil] at hA
      have hfil : List.filter (fun c => decide (c ≠ "influencer_id"))
          (revenue_df ft).cols = ["total_revenue"] := rfl
      rw [hfil] at hA
      subst hA
      refine ⟨rowGet_append_of_mem _ _ _ hmtp, ⟨0, ?_⟩, ?_, ?_⟩
      · rw [rowGet_append_of_none _ _ _ hntr]
        rfl
      · rw [List.map_append]
        exact List.mem_append.mpr (Or.inr (by simp))
      · rw [List.map_append]
        exact List.mem_append.mpr (Or.inl hmtp)
    · rw [suffixRow_nil] at hB
      rcases revenue_df_row_shape ft rr hrr with ⟨k, q, hshape⟩
      have hdrop : rowDrop rr "influencer_id" =
          [("total_revenue", Val.num q)] := by
        rw [hshape]; rfl
      rw [hdrop] at hB
      subst hB
      refine ⟨rowGet_append_of_mem _ _ _ hmtp, ⟨q, ?_⟩, ?_, ?_⟩
      · rw [rowGet_append_of_none _ _ _ hntr]
        rfl
      · rw [List.map_append]
        exact List.mem_append.mpr (Or.inr (by simp))
      · rw [List.map_append]
        exact List.mem_append.mpr (Or.inl hmtp)
  rcases hfacts with ⟨htp0, ⟨rv, hrv1⟩, htrmem, htpmem⟩
  -- cells of the fillna-coerced and roas-extended rows
  have htr1 : rowGet t1row "total_revenue" = .num rv := by
    rw [← ht1eq, rowGet_mapCell_self_of_mem _ _ _ htrmem, hrv1]
  have htp1 : rowGet t1row "total_payout" = rowGet lrow "total_payout" := by
    rw [← ht1eq, rowGet_mapCell_ne _ _ _ _ (by decide), htp0]
  have hroas2 : rowGet t2row "roas" =
      roundVal2 (divVal (rowGet t1row "total_revenue")
        (rowGet t1row "total_payout")) := by
    rw [← ht2eq, rowGet_rowSet_self]
  have htr2 : rowGet t2row "total_revenue" = .num rv := by
    rw [← ht2eq, rowGet_rowSet_ne _ _ _ _ (by decide), htr1]
  have htp2 : rowGet t2row "total_payout" = rowGet lrow "total_payout" := by
    rw [← ht2eq, rowGet_rowSet_ne _ _ _ _ (by decide), htp1]
  -- the final merge attaches names and leaves these three cells alone
  have hsubr : ∀ c, c ∈ commonCols ((((leftMergeKey
      (filtered_payouts payouts fi) (revenue_df ft)
      "influencer_id").fillna0 "total_revenue")).setCol "roas"
        (fun r => roundVal2 (divVal (rowGet r "total_revenue")
          (rowGet r "total_payout"))))
      (projectCols fi ["id", "name"]) [] → c ∈ (["id", "name"] : List String) :=
    fun c hc => commonCols_subset_right _ _ _ c hc
  have hkeys1 : t1row.map Prod.fst = t0row.map Prod.fst := by
    rw [← ht1eq, keys_mapCell]
  have hread : ∀ c : String, c ∉ (["id", "name"] : List String) →
      (∀ d : String, d ++ "_x" ≠ c) → c ∈ t2row.map Prod.fst →
      rowGet row c = rowGet t2row c := by
    intro c hcn hfr hcm
    rw [hrowE]
    exact rowGet_merged_left t2row rest _ "_x" c
      (fun hc => hcn (hsubr c hc)) (fun d _ => hfr d) hcm
  have hmem_tr : "total_revenue" ∈ t2row.map Prod.fst := by
    rw [← ht2eq]
    exact mem_keys_rowSet_of _ _ _ _ (by rw [hkeys1]; exact htrmem)
  have hmem_tp : "total_payout" ∈ t2row.map Prod.fst := by
    rw [← ht2eq]
    exact mem_keys_rowSet_of _ _ _ _ (by rw [hkeys1]; exact htpmem)
  have hmem_roas : "roas" ∈ t2row.map Prod.fst := by
    rw [← ht2eq]
    exact mem_keys_rowSet_self _ _ _
  have hR1 : rowGet row "total_revenue" = .num rv := by
    rw [hread "total_revenue" (by decide)
      (fun d => append_ne_of_last_ne d "_x" "total_revenue" 'x' 'e'
        (by decide) (by decide) (by decide)) hmem_tr, htr2]
  have hP1 : rowGet row "total_payout" = rowGet lrow "total_payout" := by
    rw [hread "total_payout" (by decide)
      (fun d => append_ne_of_last_ne d "_x" "total_payout" 'x' 't'
        (by decide) (by decide) (by decide)) hmem_tp, htp2]
  have hlp : rowGet lrow "total_payout" = .num p := by
    rw [← hP1, hp]
  refine ⟨rv, hR1, ?_⟩
  rw [hread "roas" (by decide)
      (fun d => append_ne_of_last_ne d "_x" "roas" 'x' 's'
        (by decide) (by decide) (by decide)) hmem_roas,
    hroas2, htr1, htp1, hlp, roas_round_eval]

set_option maxRecDepth 100000 in
/-- C1 witness: influencer 1's concrete ROAS row (payout 500, revenue
1000) satisfies the amended formula with roas 2. -/
theorem C1_witness :
    ∃ rv : ℚ, rowGet exRoasRow "total_revenue" = .num rv ∧
      rowGet exRoasRow "roas" = (if (500:ℚ) = 0
        then (if 0 < rv then Val.inf else if rv < 0 then Val.neginf
          else Val.na)
        else .num (round2 (rv / 500))) :=
  C1_roas_division_unguarded exTracking exInfl exPayouts
    (by unfold Table.WF; with_unfolding_all decide)
    (by with_unfolding_all decide) (by with_unfolding_all decide)
    exRoasRow (by with_unfolding_all decide) 500
    (by with_unfolding_all decide)

set_option maxRecDepth 100000 in
/-- C1 counterexample: with `total_payout = 0`, the ROAS cell is `inf`
when matching revenue exists and NaN when it does not — in both cases
not the claimed 0, and in the first case an infinite value. -/
theorem C1_counterexample :
    (∃ row ∈ (roas_df exTrackingOne exInfl exPayoutsZero).rows,
      rowGet row "total_payout" = .num 0 ∧
      rowGet row "total_revenue" = .num 1000 ∧
      rowGet row "roas" = .inf) ∧
    (∃ row ∈ (roas_df exTrackingOne exInfl exPayoutsZero).rows,
      rowGet row "total_payout" = .num 0 ∧
      rowGet row "total_revenue" = .num 0 ∧
      rowGet row "roas" = .na) := by
  constructor
  · with_unfolding_all decide
  · with_unfolding_all decide

/-! ## Claim C4 -/

theorem filterRows_eq_self (t : Table) (p : Row → Bool)
    (h : ∀ r ∈ t.rows, p r = true) : t.filterRows p = t := by
  rcases t with ⟨cols, rows⟩
  unfold Table.filterRows
  simp only [Table.mk.injEq, true_and]
  exact List.filter_eq_self.mpr h

theorem isin_uniqueCol_self (t : Table) (c : String) (r : Row)
    (hr : r ∈ t.rows) : isin (rowGet r c) (uniqueCol t c) = true := by
  unfold isin uniqueCol
  have h : rowGet r c ∈ (t.rows.map (fun r => rowGet r c)).dedup :=
    List.mem_dedup.mpr (List.mem_map.mpr ⟨r, hr, rfl⟩)
  simpa using h

theorem foldl_min_le (l : List ℚ) (q : ℚ) :
    ∀ x ∈ q :: l, l.foldl min q ≤ x := by
  induction l generalizing q with
  | nil => intro x hx; rw [List.mem_singleton.mp hx]; exact le_refl _
  | cons a tl ih =>
      intro x hx
      rcases List.mem_cons.mp hx with hx | hx
      · calc tl.foldl min (min q a) ≤ min q a := ih (min q a) _ (by simp)
          _ ≤ x := by rw [hx]; exact min_le_left _ _
      · rcases List.mem_cons.mp hx with hx | hx
        · calc tl.foldl min (min q a) ≤ min q a := ih (min q a) _ (by simp)
            _ ≤ x := by rw [hx]; exact min_le_right _ _
        · exact ih (min q a) x (by simp [hx])

theorem foldl_min_mem (l : List ℚ) (q : ℚ) : l.foldl min q ∈ q :: l := by
  induction l generalizing q with
  | nil => simp
  | cons a tl ih =>
      have h := ih (min q a)
      rcases List.mem_cons.mp h with h | h
      · rcases le_total q a with hqa | hqa
        · rw [List.foldl_cons, h, min_eq_left hqa]
          simp
        · rw [List.foldl_cons, h, min_eq_right hqa]
          simp
      · rw [List.foldl_cons]
        exact List.mem_cons.mpr (Or.inr (List.mem_cons.mpr (Or.inr h)))

theorem foldl_max_ge (l : List ℚ) (q : ℚ) :
    ∀ x ∈ q :: l, x ≤ l.foldl max q := by
  induction l generalizing q with
  | nil => intro x hx; rw [List.mem_singleton.mp hx]; exact le_refl _
  | cons a tl ih =>
      intro x hx
      rcases List.mem_cons.mp hx with hx | hx
      · calc x ≤ max q a := by rw [hx]; exact le_max_left _ _
          _ ≤ tl.foldl max (max q a) := ih (max q a) _ (by simp)
      · rcases List.mem_cons.mp hx with hx | hx
        · calc x ≤ max q a := by rw [hx]; exact le_max_right _ _
            _ ≤ tl.foldl max (max q a) := ih (max q a) _ (by simp)
        · exact ih (max q a) x (by simp [hx])

theorem foldl_max_mem (l : List ℚ) (q : ℚ) : l.foldl max q ∈ q :: l := by
  induction l generalizing q with
  | nil => simp
  | cons a tl ih =>
      have h := ih (max q a)
      rcases List.mem_cons.mp h with h | h
      · rcases le_total q a with hqa | hqa
        · rw [List.foldl_cons, h, max_eq_right hqa]
          simp
        · rw [List.foldl_cons, h, max_eq_left hqa]
          simp
      · rw [List.foldl_cons]
        exact List.mem_cons.mpr (Or.inr (List.mem_cons.mpr (Or.inr h)))

theorem intTrunc_intCast (n : ℤ) : intTrunc (n : ℚ) = n := by
  unfold intTrunc
  by_cases h : (0:ℚ) ≤ (n:ℚ)
  · rw [if_pos h, Int.floor_intCast]
  · rw [if_neg h, Int.ceil_intCast]

theorem isIntCellB_shape (v : Val) (h : isIntCellB v = true) :
    ∃ n : ℤ, v = .num (n : ℚ) := by
  rcases v with q | s | _ | _ | _ <;> simp [isIntCellB] at h
  refine ⟨q.num, ?_⟩
  have h3 := Rat.num_div_den q
  rw [h] at h3
  simp only [Nat.cast_one, div_one] at h3
  rw [h3]

/-- All-values selections leave the tracking table unchanged. -/
theorem filteredTracking_eq_self (t : Table) (selC : List Val)
    (selP : Option (List Val))
    (hC : ∀ r ∈ t.rows, isin (rowGet r "campaign") selC = true)
    (hP : ∀ r ∈ t.rows, isin (rowGet r "product") (selP.getD []) = true) :
    filteredTracking t selC selP = t := by
  simp only [filteredTracking]
  have hbase := filterRows_eq_self t _ hC
  by_cases hcond : (optActive selP && t.cols.contains "product") = true
  · rw [if_pos hcond, hbase]
    exact filterRows_eq_self t _ hP
  · rw [if_neg hcond]
    exact hbase

/-- Folding the gender stage of the influencer filter. -/
theorem gender_stage_eq (t : Table) (selG : Option (List Val)) (s : Table)
    (hs : s = t)
    (hG : ∀ r ∈ t.rows, isin (rowGet r "gender") (selG.getD []) = true) :
    (if optActive selG = true then
      s.filterRows (fun r => isin (rowGet r "gender") (selG.getD []))
    else s) = t := by
  subst hs
  by_cases hcond : optActive selG = true
  · rw [if_pos hcond]
    exact filterRows_eq_self s _ hG
  · rw [if_neg hcond]

/-- All-values selections (and a follower range spanning every value)
leave the influencer table unchanged. -/
theorem filteredInfluencers_eq_self (t : Table) (selP : List Val)
    (selC : Option (List Val)) (selF : Option (ℤ × ℤ))
    (selG : Option (List Val))
    (hP : ∀ r ∈ t.rows, isin (rowGet r "platform") selP = true)
    (hC : ∀ r ∈ t.rows, isin (rowGet r "category") (selC.getD []) = true)
    (hF : ∀ lo hi c, selF = some (lo, hi) → followerColOf t = some c →
      ∀ r ∈ t.rows,
        (geVal (rowGet r c) (.num lo) && leVal (rowGet r c) (.num hi)) = true)
    (hG : ∀ r ∈ t.rows, isin (rowGet r "gender") (selG.getD []) = true) :
    filteredInfluencers t selP selC selF selG = t := by
  simp only [filteredInfluencers]
  rw [filterRows_eq_self t _ hP]
  have hstage1 : (if (optActive selC && t.cols.contains "category") = true
      then t.filterRows
        (fun r => isin (rowGet r "category") (selC.getD [])) else t) = t := by
    by_cases hcond : (optActive selC && t.cols.contains "category") = true
    · rw [if_pos hcond]
      exact filterRows_eq_self t _ hC
    · rw [if_neg hcond]
  rw [hstage1]
  rcases selF with _ | ⟨lo, hi⟩ <;> rcases hfc : followerColOf t with _ | c
  · exact gender_stage_eq t selG _ rfl hG
  · exact gender_stage_eq t selG _ rfl hG
  · exact gender_stage_eq t selG _ rfl hG
  · exact gender_stage_eq t selG _
      (filterRows_eq_self t _ (hF lo hi c rfl hfc)) hG

/-- C4 amended: with all-values selections the Filter Engine reproduces
the tracking table exactly, and reproduces the (coerced) influencer table
exactly *provided* every follower cell is an integer-valued numeric after
coercion (matching the `int()`-cast slider bounds); a follower cell that
is missing, fails coercion, or is fractional can fall outside the default
range and be dropped, so the claim as stated is false. -/
theorem C4_all_values_selection_identity (infl tr : Table)
    (hint : ∀ c, followerColOf infl = some c →
      ∀ r ∈ (influencersAfterSidebar infl).rows,
        isIntCellB (rowGet r c) = true) :
    filteredInfluencers (influencersAfterSidebar infl)
        (uniqueCol (influencersAfterSidebar infl) "platform")
        (some (uniqueCol (influencersAfterSidebar infl) "category"))
        (defaultFollowerRange infl)
        (some (uniqueCol (influencersAfterSidebar infl) "gender"))
      = influencersAfterSidebar infl ∧
    filteredTracking tr (uniqueCol tr "campaign")
        (some (uniqueCol tr "product")) = tr := by
  constructor
  · refine filteredInfluencers_eq_self _ _ _ _ _
      (fun r hr => isin_uniqueCol_self _ _ r hr)
      (fun r hr => isin_uniqueCol_self _ _ r hr) ?_
      (fun r hr => isin_uniqueCol_self _ _ r hr)
    intro lo hi c hsf hfc r hr
    have hfc0 : followerColOf infl = some c :=
      (followerColOf_congr (influencersAfterSidebar infl) infl
        (cols_influencersAfterSidebar infl)).symm.trans hfc
    have hmm : defaultFollowerRange infl =
        some (intTrunc (colMinMax (influencersAfterSidebar infl) c).1,
          intTrunc (colMinMax (influencersAfterSidebar infl) c).2) := by
      unfold defaultFollowerRange
      rw [hfc0]
      rfl
    rw [hmm] at hsf
    have hlo : lo = intTrunc (colMinMax (influencersAfterSidebar infl) c).1 :=
      congrArg Prod.fst (Option.some.inj hsf).symm
    have hhi : hi = intTrunc (colMinMax (influencersAfterSidebar infl) c).2 :=
      congrArg Prod.snd (Option.some.inj hsf).symm
    rcases isIntCellB_shape _ (hint c hfc0 r hr) with ⟨n, hn⟩
    -- the cell's value is in the column's value list
    set vals := ((influencersAfterSidebar infl).rows.map
      (fun r => rowGet r c)).filterMap Val.asNum with hvals
    have hmemv : ((n:ℚ)) ∈ vals := by
      rw [hvals]
      exact List.mem_filterMap.mpr ⟨rowGet r c,
        List.mem_map.mpr ⟨r, hr, rfl⟩, by rw [hn]; rfl⟩
    have hints : ∀ x ∈ vals, ∃ m : ℤ, x = (m:ℚ) := by
      intro x hx
      rcases List.mem_filterMap.mp hx with ⟨v, hv, hvx⟩
      rcases List.mem_map.mp hv with ⟨r2, hr2, hr2v⟩
      rcases isIntCellB_shape _ (hint c hfc0 r2 hr2) with ⟨m, hm⟩
      rw [← hr2v, hm] at hvx
      exact ⟨m, (Option.some.inj hvx).symm⟩
    -- colMinMax on a nonempty list is the fold over its head and tail
    rcases hv2 : vals with _ | ⟨q0, qs⟩
    · rw [hv2] at hmemv
      exact absurd hmemv (List.not_mem_nil _)
    have hcmm : colMinMax (influencersAfterSidebar infl) c =
        (qs.foldl min q0, qs.foldl max q0) := by
      unfold colMinMax
      rw [← hvals, hv2]
    have hminmem := foldl_min_mem qs q0
    have hmaxmem := foldl_max_mem qs q0
    rw [← hv2] at hminmem hmaxmem
    rcases hints _ hminmem with ⟨mlo, hmlo⟩
    rcases hints _ hmaxmem with ⟨mhi, hmhi⟩
    have hminle : qs.foldl min q0 ≤ (n:ℚ) :=
      foldl_min_le qs q0 _ (by rw [hv2] at hmemv; exact hmemv)
    have hmaxge : (n:ℚ) ≤ qs.foldl max q0 :=
      foldl_max_ge qs q0 _ (by rw [hv2] at hmemv; exact hmemv)
    have hlo2 : ((lo:ℤ):ℚ) ≤ (n:ℚ) := by
      rw [hlo, hcmm]
      show ((intTrunc (qs.foldl min q0) : ℤ) : ℚ) ≤ (n:ℚ)
      rw [hmlo, intTrunc_intCast, ← hmlo]
      exact hminle
    have hhi2 : (n:ℚ) ≤ ((hi:ℤ):ℚ) := by
      rw [hhi, hcmm]
      show (n:ℚ) ≤ ((intTrunc (qs.foldl max q0) : ℤ) : ℚ)
      rw [hmhi, intTrunc_intCast, ← hmhi]
      exact hmaxge
    rw [hn]
    show (geVal (.num (n:ℚ)) (.num ((lo:ℤ):ℚ)) &&
      leVal (.num (n:ℚ)) (.num ((hi:ℤ):ℚ))) = true
    rw [Bool.and_eq_true]
    constructor
    · exact decide_eq_true hlo2
    · exact decide_eq_true hhi2
  · exact filteredTracking_eq_self tr _ _
      (fun r hr => isin_uniqueCol_self _ _ r hr)
      (fun r hr => isin_uniqueCol_self _ _ r hr)

set_option maxRecDepth 100000 in
/-- C4 witness: integer follower counts (and the concrete tracking
table), where the all-values filter is the identity. -/
theorem C4_witness :
    filteredInfluencers (influencersAfterSidebar exInflFollowers)
        (uniqueCol (influencersAfterSidebar exInflFollowers) "platform")
        (some (uniqueCol (influencersAfterSidebar exInflFollowers) "category"))
        (defaultFollowerRange exInflFollowers)
        (some (uniqueCol (influencersAfterSidebar exInflFollowers) "gender"))
      = influencersAfterSidebar exInflFollowers ∧
    filteredTracking exTracking (uniqueCol exTracking "campaign")
        (some (uniqueCol exTracking "product")) = exTracking :=
  C4_all_values_selection_identity exInflFollowers exTracking
    (by
      intro c hc
      have h1 : followerColOf exInflFollowers = some "followers" := by
        with_unfolding_all decide
      rw [h1] at hc
      rw [← Option.some.inj hc]
      with_unfolding_all decide)

set_option maxRecDepth 100000 in
/-- C4 counterexample: with a non-numeric follower cell, the all-values
selection (and the default full slider range) drops that row, so the
filter does not reproduce the influencer table. -/
theorem C4_counterexample :
    filteredInfluencers (influencersAfterSidebar exInflBadFollower)
        (uniqueCol (influencersAfterSidebar exInflBadFollower) "platform")
        (some (uniqueCol (influencersAfterSidebar exInflBadFollower) "category"))
        (defaultFollowerRange exInflBadFollower)
        (some (uniqueCol (influencersAfterSidebar exInflBadFollower) "gender"))
      ≠ influencersAfterSidebar exInflBadFollower := by
  with_unfolding_all decide

end HK
